import Mathlib

/-!
Verification of the MortgageDocAI job-orchestration subsystem.

This file is a shallow embedding of the job store, job-key index, loan lock,
enqueue paths and worker poll cycle found in `scripts/job_runner.py`,
`scripts/job_worker.py`, `scripts/loan_api.py` and the `scripts/loan_service`
package (`adapters_disk.py`, `service.py`).  Filesystem state is modelled as
explicit data (lists of job files, claim files, manifests and lock files),
Python dict-valued job records become a Lean structure, and the module-level
clock (`time.time()` / `_utc_now_z()`) is passed in as an explicit parameter.
All definitions are executable.
-/

/-! ## Output truncation (`adapters_disk._truncate` / `job_runner._truncate`) -/

/-- `STDOUT_TRUNCATE` from `adapters_disk.py` (and an identical copy in
`job_runner.py`). -/
def STDOUT_TRUNCATE : Nat := 50000

/-- `STDERR_TRUNCATE` from `adapters_disk.py` / `job_runner.py`. -/
def STDERR_TRUNCATE : Nat := 50000

/-- `ERROR_TRUNCATE` from `adapters_disk.py` / `job_runner.py`. -/
def ERROR_TRUNCATE : Nat := 4000

/-- The literal appended by `_truncate` when a string is cut:
`"\n... (truncated)"` (16 characters). -/
def truncationSentinel : String := "\n... (truncated)"

/-- `_truncate(s, max_len)` from `adapters_disk.py` lines 26-29 (identical
copy at `job_runner.py` lines 104-107): empty strings and strings of length
at most `max_len` are returned unchanged; longer strings are sliced to their
first `max_len` characters (`s[:max_len]`) and the truncation sentinel is
appended. -/
def pyTruncate (s : String) (maxLen : Nat) : String :=
  if s = "" ∨ s.length ≤ maxLen then s
  else String.mk (s.data.take maxLen) ++ truncationSentinel

/-- A 4001-character string, one character over the `ERROR_TRUNCATE` cap. -/
def c5Sample : String := String.mk (List.replicate 4001 'a')

theorem pyTruncate_of_long (s : String) (maxLen : Nat) (h : maxLen < s.length) :
    pyTruncate s maxLen = String.mk (s.data.take maxLen) ++ truncationSentinel := by
  have hne : s ≠ "" := by
    intro he
    rw [he] at h
    simp [String.length] at h
  rw [pyTruncate, if_neg]
  intro hc
  rcases hc with hc | hc
  · exact hne hc
  · omega

theorem pyTruncate_length_of_long (s : String) (maxLen : Nat) (h : maxLen < s.length) :
    (pyTruncate s maxLen).length = maxLen + truncationSentinel.length := by
  rw [pyTruncate_of_long s maxLen h, String.length_append]
  have hd : s.data.length = s.length := rfl
  have : (String.mk (s.data.take maxLen)).length = min maxLen s.data.length := by
    show (s.data.take maxLen).length = _
    exact List.length_take maxLen s.data
  rw [this]
  omega

/-- C5 counterexample: with the `ERROR_TRUNCATE` cap of 4000, truncating a
4001-character string produces a string that ends with the sentinel but has
length 4016 — strictly more than the cap.  This refutes the claim that the
stored truncated form "does not exceed the cap": the source slices the input
to `max_len` characters and appends the 16-character sentinel on top. -/
theorem c5_truncated_exceeds_cap :
    c5Sample.length > ERROR_TRUNCATE ∧
      ¬ (pyTruncate c5Sample ERROR_TRUNCATE).length ≤ ERROR_TRUNCATE := by
  have hlen : c5Sample.length = 4001 := by
    show (List.replicate 4001 'a').length = 4001
    exact List.length_replicate 4001 'a'
  have h : ERROR_TRUNCATE < c5Sample.length := by rw [hlen]; norm_num [ERROR_TRUNCATE]
  refine ⟨h, ?_⟩
  rw [pyTruncate_length_of_long c5Sample ERROR_TRUNCATE h]
  have hs : truncationSentinel.length = 16 := by decide
  rw [hs]
  norm_num [ERROR_TRUNCATE]

/-- C5 (amended): for every string `s` and every configured cap
(`STDOUT_TRUNCATE`, `STDERR_TRUNCATE`, `ERROR_TRUNCATE`), if `s` is at most
the cap it is stored unchanged; if `s` exceeds the cap, the stored form is
the first `cap` characters of `s` followed by the truncation sentinel, so it
ends with the sentinel and its total length is exactly `cap + 16` — it
exceeds the cap by the 16-character sentinel, never by more. -/
theorem c5_truncate_bounded (s : String) (cap : Nat)
    (_hcap : cap = STDOUT_TRUNCATE ∨ cap = STDERR_TRUNCATE ∨ cap = ERROR_TRUNCATE) :
    (s.length ≤ cap → pyTruncate s cap = s) ∧
      (cap < s.length →
        pyTruncate s cap = String.mk (s.data.take cap) ++ truncationSentinel ∧
        truncationSentinel.data.IsSuffix (pyTruncate s cap).data ∧
        (pyTruncate s cap).length = cap + truncationSentinel.length) := by
  constructor
  · intro hle
    rw [pyTruncate, if_pos (Or.inr hle)]
  · intro hlt
    refine ⟨pyTruncate_of_long s cap hlt, ?_, pyTruncate_length_of_long s cap hlt⟩
    rw [pyTruncate_of_long s cap hlt]
    exact ⟨(String.mk (s.data.take cap)).data, (String.data_append _ _).symm⟩

/-- Witness for `c5_truncate_bounded` at the concrete over-cap input
`c5Sample` and the concrete cap `ERROR_TRUNCATE`. -/
theorem c5_truncate_bounded_witness :
    (c5Sample.length ≤ ERROR_TRUNCATE → pyTruncate c5Sample ERROR_TRUNCATE = c5Sample) ∧
      (ERROR_TRUNCATE < c5Sample.length →
        pyTruncate c5Sample ERROR_TRUNCATE =
          String.mk (c5Sample.data.take ERROR_TRUNCATE) ++ truncationSentinel ∧
        truncationSentinel.data.IsSuffix (pyTruncate c5Sample ERROR_TRUNCATE).data ∧
        (pyTruncate c5Sample ERROR_TRUNCATE).length =
          ERROR_TRUNCATE + truncationSentinel.length) :=
  c5_truncate_bounded c5Sample ERROR_TRUNCATE (Or.inr (Or.inr rfl))

/-! ## JSON values and the idempotency fingerprint
(`adapters_disk.compute_job_key` / `job_runner._compute_job_key`) -/

/-- JSON values, as produced by parsing a request body: `null`, booleans,
numbers (requests carry integers), strings, arrays, and objects as ordered
association lists of string keys.  Python dicts preserve insertion order, so
an object's field list carries the order in which keys were inserted. -/
inductive JsonVal where
  | null
  | bool (b : Bool)
  | num (n : Int)
  | str (s : String)
  | arr (xs : List JsonVal)
  | obj (fields : List (String × JsonVal))
  deriving Repr

/-- Sort an object's fields by key, as `json.dumps(..., sort_keys=True)`
does at serialization time.  `List.mergeSort` is stable, like Python's
sort; any total order on keys yields the same canonical form for the
equality facts proved below. -/
def sortPairs (fs : List (String × JsonVal)) : List (String × JsonVal) :=
  fs.mergeSort (fun a b => decide (a.1 ≤ b.1))

mutual
/-- Recursively sort every object's fields by key.  This is the key-ordering
part of `json.dumps(payload, sort_keys=True, ...)`, split out from the
serialization so it can be reasoned about separately. -/
def canonJson : JsonVal → JsonVal
  | .null => .null
  | .bool b => .bool b
  | .num n => .num n
  | .str s => .str s
  | .arr xs => .arr (canonList xs)
  | .obj fs => .obj (sortPairs (canonFields fs))

/-- Canonicalize each element of an array (arrays keep their order). -/
def canonList : List JsonVal → List JsonVal
  | [] => []
  | x :: xs => canonJson x :: canonList xs

/-- Canonicalize the value of each field. -/
def canonFields : List (String × JsonVal) → List (String × JsonVal)
  | [] => []
  | (k, v) :: fs => (k, canonJson v) :: canonFields fs
end

mutual
/-- Serialize a (pre-canonicalized) JSON value with the compact separators
`(",", ":")` used by `json.dumps` in `compute_job_key`.  String escaping is
not modelled: it is a function of the string contents, so it does not affect
the equality facts proved here. -/
def serializeJson : JsonVal → String
  | .null => "null"
  | .bool b => if b then "true" else "false"
  | .num n => toString n
  | .str s => "\"" ++ s ++ "\""
  | .arr xs => "[" ++ serializeList xs ++ "]"
  | .obj fs => "\x7b" ++ serializeFields fs ++ "\x7d"

/-- Comma-join the serialized elements of an array. -/
def serializeList : List JsonVal → String
  | [] => ""
  | [x] => serializeJson x
  | x :: y :: xs => serializeJson x ++ "," ++ serializeList (y :: xs)

/-- Comma-join the serialized `"key":value` fields of an object. -/
def serializeFields : List (String × JsonVal) → String
  | [] => ""
  | [(k, v)] => "\"" ++ k ++ "\":" ++ serializeJson v
  | (k, v) :: q :: fs => "\"" ++ k ++ "\":" ++ serializeJson v ++ "," ++ serializeFields (q :: fs)
end

/-- Stand-in for `hashlib.sha256(raw).hexdigest()` (standard-library code,
not part of this repository): an arbitrary concrete deterministic function
of the input string.  The development relies only on it being a function —
equal inputs give equal digests. -/
def sha256hex (s : String) : String :=
  "h" ++ toString (s.data.foldl (fun a c => (a * 131 + c.toNat) % 1000000007) 7)

/-- `compute_job_key(tenant_id, loan_id, req)` from `adapters_disk.py`
lines 40-44 (identical copy `_compute_job_key` at `job_runner.py` lines
61-65): sha256 of the compact, key-sorted JSON dump of
`{"tenant_id": ..., "loan_id": ..., "request": req}`. -/
def compute_job_key (tenant_id loan_id : String) (req : JsonVal) : String :=
  sha256hex (serializeJson (canonJson (.obj
    [("tenant_id", .str tenant_id), ("loan_id", .str loan_id), ("request", req)])))

/-- Two JSON values are "equal as key/value maps": equal atoms, pointwise
equal arrays, and objects carrying the same keys bound to recursively
map-equal values in any field order (the claim's notion of request
equality, stated from the spec's words). -/
inductive MapEq : JsonVal → JsonVal → Prop where
  | null : MapEq .null .null
  | bool (b : Bool) : MapEq (.bool b) (.bool b)
  | num (n : Int) : MapEq (.num n) (.num n)
  | str (s : String) : MapEq (.str s) (.str s)
  | arr {xs ys : List JsonVal} : List.Forall₂ MapEq xs ys → MapEq (.arr xs) (.arr ys)
  | obj {fs gs gs' : List (String × JsonVal)} :
      fs.map Prod.fst = gs'.map Prod.fst →
      List.Forall₂ MapEq (fs.map Prod.snd) (gs'.map Prod.snd) →
      gs'.Perm gs → MapEq (.obj fs) (.obj gs)

/-- A JSON value that came from a Python object tree: every object has
pairwise-distinct keys (Python dicts cannot hold duplicate keys). -/
inductive IsDict : JsonVal → Prop where
  | null : IsDict .null
  | bool (b : Bool) : IsDict (.bool b)
  | num (n : Int) : IsDict (.num n)
  | str (s : String) : IsDict (.str s)
  | arr {xs : List JsonVal} : (∀ x ∈ xs, IsDict x) → IsDict (.arr xs)
  | obj {fs : List (String × JsonVal)} : (fs.map Prod.fst).Nodup →
      (∀ p ∈ fs, IsDict p.2) → IsDict (.obj fs)

theorem canonFields_eq_map (fs : List (String × JsonVal)) :
    canonFields fs = fs.map (fun p => (p.1, canonJson p.2)) := by
  induction fs with
  | nil => rfl
  | cons p fs ih =>
    obtain ⟨k, v⟩ := p
    simp only [canonFields, List.map_cons, ih]

theorem keys_canonFields (fs : List (String × JsonVal)) :
    (canonFields fs).map Prod.fst = fs.map Prod.fst := by
  rw [canonFields_eq_map, List.map_map]
  rfl

instance : IsAntisymm (String × JsonVal) (fun a b => a.1 < b.1) :=
  ⟨fun _ _ h1 h2 => absurd h2 (lt_asymm h1)⟩

theorem sortPairs_perm (fs : List (String × JsonVal)) : (sortPairs fs).Perm fs :=
  List.mergeSort_perm fs _

theorem sortPairs_sorted (fs : List (String × JsonVal)) :
    (sortPairs fs).Pairwise (fun a b => a.1 ≤ b.1) := by
  have h := @List.sorted_mergeSort (String × JsonVal)
    (fun a b => decide (a.1 ≤ b.1))
    (fun a b c hab hbc => by
      simp only [decide_eq_true_eq] at hab hbc ⊢
      exact le_trans hab hbc)
    (fun a b => by
      simp only [Bool.or_eq_true, decide_eq_true_eq]
      exact le_total a.1 b.1)
    fs
  exact h.imp (fun hab => by simpa using hab)

/-- Sorting by key is invariant under permutation of fields, provided the
keys are pairwise distinct. -/
theorem sortPairs_eq_of_perm {l₁ l₂ : List (String × JsonVal)}
    (h : l₁.Perm l₂) (hnd : (l₁.map Prod.fst).Nodup) :
    sortPairs l₁ = sortPairs l₂ := by
  have hperm : (sortPairs l₁).Perm (sortPairs l₂) :=
    ((sortPairs_perm l₁).trans h).trans (sortPairs_perm l₂).symm
  have hnd₂ : (l₂.map Prod.fst).Nodup := ((h.map Prod.fst).nodup_iff).mp hnd
  have hstrict : ∀ l : List (String × JsonVal), (l.map Prod.fst).Nodup →
      l.Pairwise (fun a b => a.1 ≤ b.1) → l.Pairwise (fun a b => a.1 < b.1) := by
    intro l hl hs
    have hne : l.Pairwise (fun a b : String × JsonVal => a.1 ≠ b.1) :=
      List.pairwise_map.mp hl
    exact (hs.and hne).imp (fun hab => lt_of_le_of_ne hab.1 hab.2)
  have hs₁ : (sortPairs l₁).Pairwise (fun a b => a.1 < b.1) := by
    refine hstrict _ ?_ (sortPairs_sorted l₁)
    exact (((sortPairs_perm l₁).map Prod.fst).nodup_iff).mpr hnd
  have hs₂ : (sortPairs l₂).Pairwise (fun a b => a.1 < b.1) := by
    refine hstrict _ ?_ (sortPairs_sorted l₂)
    exact (((sortPairs_perm l₂).map Prod.fst).nodup_iff).mpr hnd₂
  exact List.eq_of_perm_of_sorted hperm hs₁ hs₂

theorem JsonVal.sizeOf_pos (j : JsonVal) : 0 < sizeOf j := by
  cases j <;> simp

theorem canonJson_eq_of_mapEq_aux :
    ∀ (n : Nat) (j₁ j₂ : JsonVal), sizeOf j₁ ≤ n → MapEq j₁ j₂ →
      IsDict j₁ → IsDict j₂ → canonJson j₁ = canonJson j₂ := by
  intro n
  induction n with
  | zero =>
    intro j₁ _ hsz _ _ _
    exact absurd hsz (by have := JsonVal.sizeOf_pos j₁; omega)
  | succ n ih =>
    intro j₁ j₂ hsz hm h1 h2
    cases hm with
    | null => rfl
    | bool b => rfl
    | num m => rfl
    | str s => rfl
    | arr hf =>
      rename_i xs ys
      have hxsz : ∀ x ∈ xs, sizeOf x ≤ n := by
        intro x hx
        have h1 := List.sizeOf_lt_of_mem hx
        have h2 : sizeOf (JsonVal.arr xs) = 1 + sizeOf xs := by simp
        omega
      have hd1 : ∀ x ∈ xs, IsDict x := by cases h1 with | arr h => exact h
      have hd2 : ∀ y ∈ ys, IsDict y := by cases h2 with | arr h => exact h
      have hlist : ∀ (as bs : List JsonVal), List.Forall₂ MapEq as bs →
          (∀ x ∈ as, sizeOf x ≤ n) → (∀ x ∈ as, IsDict x) → (∀ y ∈ bs, IsDict y) →
          canonList as = canonList bs := by
        intro as bs hf
        induction hf with
        | nil => intro _ _ _; rfl
        | cons hxy htail ihl =>
          intro hsz' hda hdb
          simp only [canonList]
          refine congrArg₂ List.cons ?_ ?_
          · exact ih _ _ (hsz' _ (List.mem_cons_self _ _)) hxy
              (hda _ (List.mem_cons_self _ _)) (hdb _ (List.mem_cons_self _ _))
          · exact ihl (fun x hx => hsz' x (List.mem_cons_of_mem _ hx))
              (fun x hx => hda x (List.mem_cons_of_mem _ hx))
              (fun y hy => hdb y (List.mem_cons_of_mem _ hy))
      show JsonVal.arr (canonList xs) = JsonVal.arr (canonList ys)
      rw [hlist xs ys hf hxsz hd1 hd2]
    | obj hkeys hvals hperm =>
      rename_i fs gs gs'
      have hfsz : ∀ p ∈ fs, sizeOf p.2 ≤ n := by
        intro p hp
        have hlt := List.sizeOf_lt_of_mem hp
        obtain ⟨a, b⟩ := p
        have hps : sizeOf (a, b) = 1 + sizeOf a + sizeOf b := by simp
        have hos : sizeOf (JsonVal.obj fs) = 1 + sizeOf fs := by simp
        simp only at hlt ⊢
        omega
      have hndf : (fs.map Prod.fst).Nodup := by cases h1 with | obj h _ => exact h
      have hdf : ∀ p ∈ fs, IsDict p.2 := by cases h1 with | obj _ h => exact h
      have hdg : ∀ p ∈ gs, IsDict p.2 := by cases h2 with | obj _ h => exact h
      have hdg' : ∀ p ∈ gs', IsDict p.2 := fun p hp => hdg p (hperm.mem_iff.mp hp)
      have hfields : ∀ (as bs : List (String × JsonVal)),
          as.map Prod.fst = bs.map Prod.fst →
          List.Forall₂ MapEq (as.map Prod.snd) (bs.map Prod.snd) →
          (∀ p ∈ as, sizeOf p.2 ≤ n) → (∀ p ∈ as, IsDict p.2) →
          (∀ p ∈ bs, IsDict p.2) → canonFields as = canonFields bs := by
        intro as
        induction as with
        | nil =>
          intro bs hk _ _ _ _
          cases bs with
          | nil => rfl
          | cons q bs => simp at hk
        | cons p as iha =>
          intro bs hk hv hsz' hda hdb
          cases bs with
          | nil => simp at hk
          | cons q bs =>
            obtain ⟨k, v⟩ := p
            obtain ⟨k', w⟩ := q
            simp only [List.map_cons] at hk hv
            cases hv with
            | cons hvw htail =>
              have hkk : k = k' ∧ as.map Prod.fst = bs.map Prod.fst := by
                constructor
                · exact (List.cons.injEq _ _ _ _ ▸ hk).1
                · exact (List.cons.injEq _ _ _ _ ▸ hk).2
              simp only [canonFields]
              refine congrArg₂ List.cons ?_ ?_
              · refine Prod.ext hkk.1 ?_
                show canonJson v = canonJson w
                exact ih v w (hsz' (k, v) (List.mem_cons_self _ _)) hvw
                  (hda (k, v) (List.mem_cons_self _ _)) (hdb (k', w) (List.mem_cons_self _ _))
              · exact iha bs hkk.2 htail
                  (fun p hp => hsz' p (List.mem_cons_of_mem _ hp))
                  (fun p hp => hda p (List.mem_cons_of_mem _ hp))
                  (fun p hp => hdb p (List.mem_cons_of_mem _ hp))
      have heq : canonFields fs = canonFields gs' := by
        refine hfields fs gs' hkeys hvals hfsz hdf hdg'
      show JsonVal.obj (sortPairs (canonFields fs)) = JsonVal.obj (sortPairs (canonFields gs))
      rw [heq]
      have hpc : (canonFields gs').Perm (canonFields gs) := by
        rw [canonFields_eq_map, canonFields_eq_map]
        exact hperm.map _
      have hndc : ((canonFields gs').map Prod.fst).Nodup := by
        rw [keys_canonFields, ← hkeys]
        exact hndf
      rw [sortPairs_eq_of_perm hpc hndc]

/-- C7: for every `tenant_id`, `loan_id` and every two request maps that are
equal as key/value maps (same keys bound to recursively equal values, in any
field order, including inside nested maps), `compute_job_key` returns the
same fingerprint for both.  The request maps come from Python dicts, so
every object level has pairwise-distinct keys (`IsDict`). -/
theorem c7_compute_job_key_order_insensitive (tenant_id loan_id : String)
    (r₁ r₂ : JsonVal) (h₁ : IsDict r₁) (h₂ : IsDict r₂) (h : MapEq r₁ r₂) :
    compute_job_key tenant_id loan_id r₁ = compute_job_key tenant_id loan_id r₂ := by
  unfold compute_job_key
  have hm : MapEq
      (.obj [("tenant_id", .str tenant_id), ("loan_id", .str loan_id), ("request", r₁)])
      (.obj [("tenant_id", .str tenant_id), ("loan_id", .str loan_id), ("request", r₂)]) := by
    refine @MapEq.obj _ _
      [("tenant_id", .str tenant_id), ("loan_id", .str loan_id), ("request", r₂)] rfl ?_ (List.Perm.refl _)
    exact List.Forall₂.cons (MapEq.str _) (List.Forall₂.cons (MapEq.str _)
      (List.Forall₂.cons h List.Forall₂.nil))
  have hd : ∀ r : JsonVal, IsDict r → IsDict
      (.obj [("tenant_id", .str tenant_id), ("loan_id", .str loan_id), ("request", r)]) := by
    intro r hr
    refine IsDict.obj (by simp) ?_
    intro p hp
    simp only [List.mem_cons, List.not_mem_nil, or_false] at hp
    rcases hp with hp | hp | hp <;> subst hp
    · exact IsDict.str _
    · exact IsDict.str _
    · exact hr
  have := canonJson_eq_of_mapEq_aux (sizeOf
    (JsonVal.obj [("tenant_id", .str tenant_id), ("loan_id", .str loan_id), ("request", r₁)]))
    _ _ (le_refl _) hm (hd r₁ h₁) (hd r₂ h₂)
  rw [this]

/-- A concrete request: `{"b": 1, "a": {"y": "v", "x": 2}}`. -/
def c7Req1 : JsonVal :=
  .obj [("b", .num 1), ("a", .obj [("y", .str "v"), ("x", .num 2)])]

/-- The same request with reordered fields at both nesting levels:
`{"a": {"x": 2, "y": "v"}, "b": 1}`. -/
def c7Req2 : JsonVal :=
  .obj [("a", .obj [("x", .num 2), ("y", .str "v")]), ("b", .num 1)]

/-- Witness for `c7_compute_job_key_order_insensitive`: the two concretely
reordered requests above are map-equal and get the same fingerprint. -/
theorem c7_compute_job_key_order_insensitive_witness :
    compute_job_key "t1" "L1" c7Req1 = compute_job_key "t1" "L1" c7Req2 := by
  have hinner1 : IsDict (JsonVal.obj [("y", .str "v"), ("x", .num 2)]) := by
    refine IsDict.obj (by decide) ?_
    intro p hp
    simp only [List.mem_cons, List.not_mem_nil, or_false] at hp
    rcases hp with hp | hp <;> subst hp
    · exact IsDict.str _
    · exact IsDict.num _
  have hinner2 : IsDict (JsonVal.obj [("x", .num 2), ("y", .str "v")]) := by
    refine IsDict.obj (by decide) ?_
    intro p hp
    simp only [List.mem_cons, List.not_mem_nil, or_false] at hp
    rcases hp with hp | hp <;> subst hp
    · exact IsDict.num _
    · exact IsDict.str _
  have h₁ : IsDict c7Req1 := by
    refine IsDict.obj (by decide) ?_
    intro p hp
    simp only [c7Req1, List.mem_cons, List.not_mem_nil, or_false] at hp
    rcases hp with hp | hp <;> subst hp
    · exact IsDict.num _
    · exact hinner1
  have h₂ : IsDict c7Req2 := by
    refine IsDict.obj (by decide) ?_
    intro p hp
    simp only [c7Req2, List.mem_cons, List.not_mem_nil, or_false] at hp
    rcases hp with hp | hp <;> subst hp
    · exact hinner2
    · exact IsDict.num _
  have hminner : MapEq (JsonVal.obj [("y", .str "v"), ("x", .num 2)])
      (JsonVal.obj [("x", .num 2), ("y", .str "v")]) := by
    refine @MapEq.obj _ _ [("y", .str "v"), ("x", .num 2)] rfl ?_ ?_
    · exact List.Forall₂.cons (MapEq.str _) (List.Forall₂.cons (MapEq.num _) List.Forall₂.nil)
    · exact List.Perm.swap ("x", JsonVal.num 2) ("y", JsonVal.str "v") []
  have hm : MapEq c7Req1 c7Req2 := by
    refine @MapEq.obj _ _
      [("b", .num 1), ("a", .obj [("x", .num 2), ("y", .str "v")])] rfl ?_ ?_
    · exact List.Forall₂.cons (MapEq.num _) (List.Forall₂.cons hminner List.Forall₂.nil)
    · exact List.Perm.swap ("a", JsonVal.obj [("x", JsonVal.num 2), ("y", JsonVal.str "v")])
        ("b", JsonVal.num 1) []
  exact c7_compute_job_key_order_insensitive "t1" "L1" c7Req1 c7Req2 h₁ h₂ hm

/-! ## Job records and the on-disk state
(`loan_service/adapters_disk.py`, mirrored by `job_runner.py`) -/

/-- A JSON object whose values are strings or `null`, used for manifests and
result summaries (the only fields the core reads from them are string-or-null
valued). -/
abbrev StrDict := List (String × Option String)

/-- Python's `d.get(k)`: `None` both when the key is absent and when it is
bound to `null`. -/
def dictGet (d : StrDict) (k : String) : Option String := (d.lookup k).bind id

/-- A job record, after the fields the code reads from the JSON dict.
String fields that Python checks only for truthiness (`tenant_id`,
`loan_id`, `job_id`, `run_id`, `created_at_utc`) use `""` for both a
missing key and an empty value — the two are indistinguishable to every
truthiness check in the source. -/
structure JobRec where
  job_id : String
  tenant_id : String
  loan_id : String
  run_id : String
  status : String
  created_at_utc : String
  started_at_utc : Option String
  finished_at_utc : Option String
  request : JsonVal
  result : Option StrDict
  error : Option String
  stdout : Option String
  stderr : Option String
  job_key : String
  deriving Repr

/-- What `json.load` on a `.json` job file yields:
* `bad` — unreadable, malformed JSON, or not a JSON object;
* `partialObj s` — a JSON object missing the `job_id` or `status` key
  (with `s` the value of `status` if present), which `load_all` log-skips
  but `clear_stale_claims` still inspects;
* `record r` — an object carrying at least `job_id` and `status`. -/
inductive FileContent where
  | bad
  | partialObj (status : Option String)
  | record (r : JobRec)
  deriving Repr

/-- One `.../tenants/{t}/loans/{l}/_meta/jobs/{stem}.json` file. -/
structure JobFile where
  tenant : String
  loan : String
  stem : String
  mtime : Nat
  content : FileContent
  deriving Repr

/-- One `.../_meta/jobs/{stem}.claim` marker file (content advisory). -/
structure ClaimFile where
  tenant : String
  loan : String
  stem : String
  mtime : Nat
  deriving Repr

/-- The filesystem state the job subsystem touches: job record files, claim
markers, the external pipeline's manifests (consulted, never written, keyed
by `(tenant, loan, run_id)`; a missing entry covers both an absent file and
one that fails to parse), and per-loan lock files. -/
structure Disk where
  jobFiles : List JobFile
  claimFiles : List ClaimFile
  manifests : List ((String × String × String) × StrDict)
  locks : List (String × String)
  deriving Repr

/-- Abstract rendering of `_utc_now_z()` and
`datetime.fromtimestamp(mtime, tz=utc)`: timestamps are a function of the
model clock; their string form never feeds back into control flow. -/
def tsStr (n : Nat) : String := toString n ++ "Z"

/-- Key equality for a job file against a `(tenant, loan, stem)` path. -/
def jobFileKeyEq (f : JobFile) (t l stem : String) : Bool :=
  f.tenant == t && f.loan == l && f.stem == stem

/-- Key equality for a claim file against a `(tenant, loan, stem)` path. -/
def claimKeyEq (c : ClaimFile) (t l stem : String) : Bool :=
  c.tenant == t && c.loan == l && c.stem == stem

/-- Look up the job file at `.../{t}/loans/{l}/_meta/jobs/{stem}.json`. -/
def jobFileAt (d : Disk) (t l stem : String) : Option JobFile :=
  d.jobFiles.find? (fun f => jobFileKeyEq f t l stem)

/-- The manifest path string used in result summaries. -/
def manifestPathStr (t l r : String) : String :=
  "tenants/" ++ t ++ "/loans/" ++ l ++ "/" ++ r ++ "/job_manifest.json"

/-- `str(mp.parent)` for the manifest path above. -/
def outputsBaseStr (t l r : String) : String :=
  "tenants/" ++ t ++ "/loans/" ++ l ++ "/" ++ r

/-- `load_manifest_if_present` (`adapters_disk.py` lines 47-61 /
`job_runner._load_manifest_if_present`): the parsed manifest, or `None`
when the file is absent or unreadable. -/
def load_manifest_if_present (d : Disk) (t l r : String) : Option StrDict :=
  d.manifests.lookup (t, l, r)

/-- `result_from_manifest` (`adapters_disk.py` lines 64-81 /
`job_runner._result_from_manifest`): a result summary if the manifest is
present, truthy and reports `SUCCESS`; else `None`. -/
def result_from_manifest (d : Disk) (t l r : String) : Option StrDict :=
  match load_manifest_if_present d t l r with
  | none => none
  | some m =>
    if m = [] ∨ dictGet m "status" ≠ some "SUCCESS" then none
    else some [("manifest_path", some (manifestPathStr t l r)),
               ("status", dictGet m "status"),
               ("rp_sha256", dictGet m "retrieval_pack_sha256"),
               ("outputs_base", some (outputsBaseStr t l r))]

/-- `DiskJobStore.save` (`adapters_disk.py` lines 307-321) and its twin
`_persist_job` (`job_runner.py` lines 82-97): if any of `tenant_id`,
`loan_id`, `job_id` is missing or empty the function returns without
touching the store; otherwise the record is written (temp file + atomic
rename) over `.../{tenant}/loans/{loan}/_meta/jobs/{job_id}.json`.  The
return type `Disk` carries no error channel, mirroring the Python `None`
return (write failures are only logged). -/
def diskSave (d : Disk) (now : Nat) (job : JobRec) : Disk :=
  if job.tenant_id = "" ∨ job.loan_id = "" ∨ job.job_id = "" then d
  else { d with jobFiles :=
    d.jobFiles.filter (fun f => !(jobFileKeyEq f job.tenant_id job.loan_id job.job_id)) ++
      [⟨job.tenant_id, job.loan_id, job.job_id, now, .record job⟩] }

/-- `DiskJobStore.try_claim` (`adapters_disk.py` lines 159-174): exclusive
create (`O_CREAT|O_EXCL`) of the `.claim` marker; `False` when it already
exists.  (The `OSError` branch, also returning `False` with no state
change, is subsumed by the `False` case.) -/
def try_claim (d : Disk) (now : Nat) (t l j : String) : Bool × Disk :=
  if d.claimFiles.any (fun c => claimKeyEq c t l j) then (false, d)
  else (true, { d with claimFiles := d.claimFiles ++ [⟨t, l, j, now⟩] })

/-- `DiskJobStore.release_claim` (`adapters_disk.py` lines 176-183):
delete the marker, idempotently. -/
def release_claim (d : Disk) (t l j : String) : Disk :=
  { d with claimFiles := d.claimFiles.filter (fun c => !(claimKeyEq c t l j)) }

/-- `LoanLockImpl.release` / `clear_if_stale` (`adapters_disk.py` lines
409-418): delete the per-loan lock file if present. -/
def lockRelease (d : Disk) (t l : String) : Disk :=
  { d with locks := d.locks.filter (fun p => !(p.1 == t && p.2 == l)) }

/-- A successful `LoanLockImpl.acquire` (`adapters_disk.py` lines 392-407)
creates the lock marker.  (Contention blocks with sleep-retry and is not
modelled; an `OSError` raise is modelled at the call site.) -/
def lockAcquire (d : Disk) (t l : String) : Disk :=
  { d with locks := d.locks ++ [(t, l)] }

/-- C10: for every job record dict in which `tenant_id`, `loan_id` or
`job_id` is missing or empty, `DiskJobStore.save` (and `_persist_job`)
returns without writing anything, leaving the store completely unchanged;
the `Disk`-valued result carries no error indication, exactly as the
Python functions return `None` without raising. -/
theorem c10_save_skips_incomplete_record (d : Disk) (now : Nat) (job : JobRec)
    (h : job.tenant_id = "" ∨ job.loan_id = "" ∨ job.job_id = "") :
    diskSave d now job = d := by
  rw [diskSave, if_pos h]

/-- A record whose `loan_id` is empty (e.g. the key was absent from the
dict). -/
def c10Job : JobRec :=
  { job_id := "j-123", tenant_id := "t1", loan_id := "", run_id := "",
    status := "PENDING", created_at_utc := "2025-01-01T00:00:00Z",
    started_at_utc := none, finished_at_utc := none, request := .obj [],
    result := none, error := none, stdout := none, stderr := none,
    job_key := "k" }

/-- A small concrete disk used by several witnesses. -/
def c10Disk : Disk :=
  { jobFiles := [⟨"t1", "L1", "j-0", 50, .record
      { job_id := "j-0", tenant_id := "t1", loan_id := "L1", run_id := "",
        status := "SUCCESS", created_at_utc := "2025-01-01T00:00:00Z",
        started_at_utc := none, finished_at_utc := none, request := .obj [],
        result := none, error := none, stdout := none, stderr := none,
        job_key := "k0" }⟩],
    claimFiles := [], manifests := [], locks := [] }

/-- Witness for `c10_save_skips_incomplete_record` at a concrete store and
record. -/
theorem c10_save_skips_incomplete_record_witness :
    diskSave c10Disk 60 c10Job = c10Disk :=
  c10_save_skips_incomplete_record c10Disk 60 c10Job (Or.inr (Or.inl rfl))

/-! ## Stale-claim garbage collection (`DiskJobStore.clear_stale_claims`) -/

/-- The condition under which `clear_stale_claims` (`adapters_disk.py`
lines 185-220) unlinks a claim marker: the marker is older than
`max_age_sec` (`now - mtime > max_age_sec`; Python float subtraction and
Lean's truncated `Nat` subtraction agree on this strict comparison), the
job record file with the same stem exists, parses as a JSON object, and
that object's `status` is `PENDING`.  An unreadable or non-object job file
raises into the per-file `except` and nothing is deleted. -/
def staleClaimDeletable (d : Disk) (now maxAge : Nat) (c : ClaimFile) : Bool :=
  decide (maxAge < now - c.mtime) &&
    (match jobFileAt d c.tenant c.loan c.stem with
     | some f =>
       match f.content with
       | .record r => r.status == "PENDING"
       | .partialObj s => s == some "PENDING"
       | .bad => false
     | none => false)

/-- Delete every claim marker at the given path (at most one exists on a
real filesystem). -/
def removeClaimKey (d : Disk) (t l stem : String) : Disk :=
  { d with claimFiles := d.claimFiles.filter (fun c => !(claimKeyEq c t l stem)) }

/-- The `for p in jobs_dir.iterdir()` loop body of `clear_stale_claims`,
iterating over the claim markers found by the scan. -/
def clearStaleClaimsLoop (now maxAge : Nat) : List ClaimFile → Disk → Disk
  | [], d => d
  | c :: cs, d =>
    clearStaleClaimsLoop now maxAge cs
      (if staleClaimDeletable d now maxAge c then removeClaimKey d c.tenant c.loan c.stem else d)

/-- `DiskJobStore.clear_stale_claims(max_age_sec)`. -/
def clear_stale_claims (d : Disk) (now maxAge : Nat) : Disk :=
  clearStaleClaimsLoop now maxAge d.claimFiles d

theorem staleClaimDeletable_congr {d₁ d₂ : Disk} (h : d₁.jobFiles = d₂.jobFiles)
    (now maxAge : Nat) (c : ClaimFile) :
    staleClaimDeletable d₁ now maxAge c = staleClaimDeletable d₂ now maxAge c := by
  unfold staleClaimDeletable jobFileAt
  rw [h]

theorem clearStaleClaimsLoop_spec (d : Disk) (now maxAge : Nat) :
    ∀ (cs : List ClaimFile) (d' : Disk), d'.jobFiles = d.jobFiles →
      clearStaleClaimsLoop now maxAge cs d' =
        { d' with claimFiles := d'.claimFiles.filter (fun x =>
            !(cs.any (fun c => claimKeyEq x c.tenant c.loan c.stem &&
                staleClaimDeletable d now maxAge c))) } := by
  intro cs
  induction cs with
  | nil =>
    intro d' _
    simp only [clearStaleClaimsLoop, List.any_nil, Bool.not_false, List.filter_true]
  | cons c cs ih =>
    intro d' hjf
    simp only [clearStaleClaimsLoop]
    rw [staleClaimDeletable_congr hjf now maxAge c]
    by_cases hdel : staleClaimDeletable d now maxAge c = true
    · rw [if_pos hdel, ih (removeClaimKey d' c.tenant c.loan c.stem) hjf]
      show Disk.mk _ _ _ _ = Disk.mk _ _ _ _
      simp only [removeClaimKey, List.filter_filter]
      congr 1
      refine List.filter_congr ?_
      intro x _
      rw [List.any_cons, hdel]
      simp [Bool.and_comm]
    · rw [if_neg hdel, ih d' hjf]
      congr 1
      refine List.filter_congr ?_
      intro x _
      rw [List.any_cons]
      rcases Bool.of_not_eq_true hdel with h
      rw [h]
      simp

/-- C9: `clear_stale_claims` deletes an over-age claim marker exactly when
the job record file with the same stem exists, parses as a JSON object, and
has status `PENDING` (`staleClaimDeletable`); every other claim marker —
including over-age markers whose job file is missing, unreadable, or in any
other status — is left in place, and job files, manifests and lock files
are untouched.  Claim paths are assumed distinct, as they are on a real
filesystem. -/
theorem c9_clear_stale_claims_only_deletes_qualifying (d : Disk) (now maxAge : Nat)
    (hnd : (d.claimFiles.map (fun c => (c.tenant, c.loan, c.stem))).Nodup) :
    clear_stale_claims d now maxAge =
      { d with claimFiles :=
          d.claimFiles.filter (fun c => !(staleClaimDeletable d now maxAge c)) } := by
  rw [clear_stale_claims, clearStaleClaimsLoop_spec d now maxAge d.claimFiles d rfl]
  congr 1
  refine List.filter_congr ?_
  intro x hx
  congr 1
  by_cases hdelx : staleClaimDeletable d now maxAge x = true
  · rw [hdelx, List.any_eq_true]
    exact ⟨x, hx, by simp [claimKeyEq, hdelx]⟩
  · rw [Bool.not_eq_true] at hdelx
    rw [hdelx]
    rw [List.any_eq_false]
    intro c hc
    simp only [claimKeyEq, Bool.and_eq_true, beq_iff_eq]
    rintro ⟨⟨⟨hxt, hxl⟩, hxs⟩, hdelc⟩
    have hkey : (fun c : ClaimFile => (c.tenant, c.loan, c.stem)) x
        = (fun c : ClaimFile => (c.tenant, c.loan, c.stem)) c := by
      simp [hxt, hxl, hxs]
    have hxc : x = c := List.inj_on_of_nodup_map hnd hx hc hkey
    rw [← hxc] at hdelc
    rw [hdelc] at hdelx
    exact Bool.true_eq_false ▸ hdelx

/-- A PENDING record used by the C9 witness. -/
def c9PendingRec : JobRec :=
  { job_id := "jp", tenant_id := "t1", loan_id := "L1", run_id := "",
    status := "PENDING", created_at_utc := "2025-01-01T00:00:00Z",
    started_at_utc := none, finished_at_utc := none, request := .obj [],
    result := none, error := none, stdout := none, stderr := none,
    job_key := "kp" }

/-- A disk holding one over-age claim on a PENDING job (deletable), one
over-age claim whose job file is missing (kept), and one fresh claim
(kept). -/
def c9Disk : Disk :=
  { jobFiles := [⟨"t1", "L1", "jp", 10, .record c9PendingRec⟩],
    claimFiles := [⟨"t1", "L1", "jp", 10⟩, ⟨"t1", "L1", "gone", 10⟩, ⟨"t1", "L1", "jp2", 990⟩],
    manifests := [], locks := [] }

/-- Witness for `c9_clear_stale_claims_only_deletes_qualifying` at the
concrete store `c9Disk`. -/
theorem c9_clear_stale_claims_only_deletes_qualifying_witness :
    clear_stale_claims c9Disk 1000 300 =
      { c9Disk with claimFiles :=
          c9Disk.claimFiles.filter (fun c => !(staleClaimDeletable c9Disk 1000 300 c)) } :=
  c9_clear_stale_claims_only_deletes_qualifying c9Disk 1000 300 (by decide)

/-! ## Bulk reload with crash recovery and retention
(`DiskJobStore.load_all` / `job_runner.load_jobs_from_disk`) -/

/-- `JOB_RELOAD_LIMIT` default from the source (`int(os.environ.get(...,
"500"))`). -/
def JOB_RELOAD_LIMIT : Nat := 500

/-- `JOB_RETENTION_DAYS` default from the source. -/
def JOB_RETENTION_DAYS : Nat := 30

/-- `retention_sec = JOB_RETENTION_DAYS * 24 * 3600`. -/
def retentionSec : Nat := JOB_RETENTION_DAYS * 24 * 3600

/-- `collected.sort(key=lambda x: x[1], reverse=True)`: job files sorted
newest-first (stable, like Python's sort). -/
def sortByMtimeDesc (fs : List JobFile) : List JobFile :=
  fs.mergeSort (fun a b => Nat.ble b.mtime a.mtime)

/-- Backfill a missing `created_at_utc` from the file's mtime
(`load_all` step: `if not job.get("created_at_utc"): ...fromtimestamp`). -/
def backfillCreated (mt : Nat) (r : JobRec) : JobRec :=
  if r.created_at_utc = "" then { r with created_at_utc := tsStr mt } else r

/-- The load loop of `load_all`: parse each file (newest first), skip
unreadable files and objects missing `job_id`/`status`, skip a `job_id`
already loaded, backfill `created_at_utc`. -/
def buildJobs : List JobFile → List (String × JobRec) → List (String × JobRec)
  | [], acc => acc
  | f :: rest, acc =>
    match f.content with
    | .record r =>
      if (acc.lookup r.job_id).isSome then buildJobs rest acc
      else buildJobs rest (acc ++ [(r.job_id, backfillCreated f.mtime r)])
    | _ => buildJobs rest acc

/-- The jobs map as loaded from disk, before crash recovery. -/
def loadedJobs (d : Disk) : List (String × JobRec) :=
  buildJobs ((sortByMtimeDesc d.jobFiles).take JOB_RELOAD_LIMIT) []

/-- `result_from_manifest`, as a function of the manifest store only (the
recovery loop never writes manifests, so its reads are against the initial
manifest store). -/
def resultFromManifests (mans : List ((String × String × String) × StrDict))
    (t l r : String) : Option StrDict :=
  match mans.lookup (t, l, r) with
  | none => none
  | some m =>
    if m = [] ∨ dictGet m "status" ≠ some "SUCCESS" then none
    else some [("manifest_path", some (manifestPathStr t l r)),
               ("status", dictGet m "status"),
               ("rp_sha256", dictGet m "retrieval_pack_sha256"),
               ("outputs_base", some (outputsBaseStr t l r))]

theorem result_from_manifest_eq (d : Disk) (t l r : String) :
    result_from_manifest d t l r = resultFromManifests d.manifests t l r := rfl

/-- The record transformation of `load_all`'s restart-recovery pass: a
`RUNNING` record with nonempty `tenant_id` and `loan_id` becomes `SUCCESS`
(with `result` from the manifest) when its resolved run id has a
success manifest, else `FAIL` with a synthetic recovery error; every other
record is untouched. -/
def recoverRec (mans : List ((String × String × String) × StrDict)) (now : Nat)
    (r : JobRec) : JobRec :=
  if r.status = "RUNNING" ∧ r.tenant_id ≠ "" ∧ r.loan_id ≠ "" then
    match (if r.run_id ≠ "" then resultFromManifests mans r.tenant_id r.loan_id r.run_id
           else none) with
    | some s =>
      { r with
        status := "SUCCESS"
        finished_at_utc := some (tsStr now)
        result := some s
        error := none }
    | none =>
      { r with
        status := "FAIL"
        finished_at_utc := some (tsStr now)
        error := some (pyTruncate
          "Recovered after restart: job was RUNNING but no active worker"
          ERROR_TRUNCATE) }
  else r

/-- The `for job in list(jobs.values())` recovery loop of `load_all`
(`adapters_disk.py` lines 275-297): for each `RUNNING` record with nonempty
ids, clear the loan lock (`clear_if_stale`), rewrite the record in the jobs
map, and persist it (`self.save`); records failing the guard are skipped
(`continue`). -/
def recoverStep (now : Nat) (d : Disk) (r : JobRec) : Disk :=
  if r.status = "RUNNING" ∧ r.tenant_id ≠ "" ∧ r.loan_id ≠ "" then
    diskSave (lockRelease d r.tenant_id r.loan_id) now (recoverRec d.manifests now r)
  else d

def recoverLoop (now : Nat) : List (String × JobRec) → Disk → List (String × JobRec) × Disk
  | [], d => ([], d)
  | (j, r) :: rest, d =>
    ((j, recoverRec d.manifests now r) :: (recoverLoop now rest (recoverStep now d r)).1,
      (recoverLoop now rest (recoverStep now d r)).2)

/-- The final retention pass of `load_all`: delete (by path) every file
whose mtime in the pre-reload scan is older than the retention window
(`for path, mtime in collected: if now_ts - mtime > retention_sec:
path.unlink()`). -/
def retentionSweep (collected : List JobFile) (now : Nat) (d : Disk) : Disk :=
  { d with jobFiles := d.jobFiles.filter (fun f =>
      !(collected.any (fun c => jobFileKeyEq c f.tenant f.loan f.stem &&
          decide (retentionSec < now - c.mtime)))) }

/-- `DiskJobStore.load_all` (`adapters_disk.py` lines 222-305), identically
`job_runner.load_jobs_from_disk`: enumerate job files, sort newest-first,
load the newest `JOB_RELOAD_LIMIT`, run restart recovery for `RUNNING`
records, then prune over-age files; returns the jobs map and the resulting
store state. -/
def load_all (d : Disk) (now : Nat) : List (String × JobRec) × Disk :=
  let collected := sortByMtimeDesc d.jobFiles
  let step := recoverLoop now (buildJobs (collected.take JOB_RELOAD_LIMIT) []) d
  (step.1, retentionSweep collected now step.2)

theorem lookup_isSome_iff {β : Type} (j : String) :
    ∀ (acc : List (String × β)), (acc.lookup j).isSome = true ↔ ∃ q ∈ acc, q.1 = j := by
  intro acc
  induction acc with
  | nil => simp [List.lookup]
  | cons p acc ih =>
    obtain ⟨k, v⟩ := p
    by_cases h : j = k
    · subst h
      simp [List.lookup]
    · have hbeq : (j == k) = false := beq_eq_false_iff_ne.mpr h
      simp only [List.lookup, hbeq, List.mem_cons]
      rw [ih]
      constructor
      · rintro ⟨q, hq, hq1⟩
        exact ⟨q, Or.inr hq, hq1⟩
      · rintro ⟨q, hq | hq, hq1⟩
        · exact absurd (hq ▸ hq1) (fun he => h he.symm)
        · exact ⟨q, hq, hq1⟩

theorem backfillCreated_job_id (mt : Nat) (r : JobRec) :
    (backfillCreated mt r).job_id = r.job_id := by
  unfold backfillCreated
  split <;> rfl

theorem backfillCreated_status (mt : Nat) (r : JobRec) :
    (backfillCreated mt r).status = r.status := by
  unfold backfillCreated
  split <;> rfl

theorem buildJobs_eq_bad (f : JobFile) (rest : List JobFile)
    (acc : List (String × JobRec)) (hcf : f.content = .bad) :
    buildJobs (f :: rest) acc = buildJobs rest acc := by
  rw [buildJobs, hcf]

theorem buildJobs_eq_partialObj (f : JobFile) (rest : List JobFile)
    (acc : List (String × JobRec)) (s : Option String) (hcf : f.content = .partialObj s) :
    buildJobs (f :: rest) acc = buildJobs rest acc := by
  rw [buildJobs, hcf]

theorem buildJobs_eq_record (f : JobFile) (rest : List JobFile)
    (acc : List (String × JobRec)) (r : JobRec) (hcf : f.content = .record r) :
    buildJobs (f :: rest) acc =
      if (acc.lookup r.job_id).isSome then buildJobs rest acc
      else buildJobs rest (acc ++ [(r.job_id, backfillCreated f.mtime r)]) := by
  rw [buildJobs, hcf]

theorem buildJobs_coherent : ∀ (fs : List JobFile) (acc : List (String × JobRec)),
    (∀ p ∈ acc, (p.2 : JobRec).job_id = p.1) →
    ∀ p ∈ buildJobs fs acc, (p.2 : JobRec).job_id = p.1 := by
  intro fs
  induction fs with
  | nil => intro acc h; exact h
  | cons f rest ih =>
    intro acc hacc p hp
    rcases hcf : f.content with _ | s | r
    · rw [buildJobs_eq_bad f rest acc hcf] at hp
      exact ih acc hacc p hp
    · rw [buildJobs_eq_partialObj f rest acc s hcf] at hp
      exact ih acc hacc p hp
    · rw [buildJobs_eq_record f rest acc r hcf] at hp
      by_cases hlk : (acc.lookup r.job_id).isSome = true
      · rw [if_pos hlk] at hp
        exact ih acc hacc p hp
      · rw [if_neg hlk] at hp
        refine ih _ ?_ p hp
        intro q hq
        rcases List.mem_append.mp hq with hq | hq
        · exact hacc q hq
        · rcases List.mem_singleton.mp hq with rfl
          exact backfillCreated_job_id f.mtime r

theorem buildJobs_keys_nodup : ∀ (fs : List JobFile) (acc : List (String × JobRec)),
    (acc.map Prod.fst).Nodup → ((buildJobs fs acc).map Prod.fst).Nodup := by
  intro fs
  induction fs with
  | nil => intro acc h; exact h
  | cons f rest ih =>
    intro acc hacc
    rcases hcf : f.content with _ | s | r
    · rw [buildJobs_eq_bad f rest acc hcf]; exact ih acc hacc
    · rw [buildJobs_eq_partialObj f rest acc s hcf]; exact ih acc hacc
    · rw [buildJobs_eq_record f rest acc r hcf]
      by_cases hlk : (acc.lookup r.job_id).isSome = true
      · rw [if_pos hlk]; exact ih acc hacc
      · rw [if_neg hlk]
        refine ih _ ?_
        have hnotin : r.job_id ∉ acc.map Prod.fst := by
          intro hmem
          rcases List.mem_map.mp hmem with ⟨q, hq, hq1⟩
          exact hlk ((lookup_isSome_iff r.job_id acc).mpr ⟨q, hq, hq1⟩)
        rw [List.map_append]
        simp only [List.map_cons, List.map_nil]
        exact List.Nodup.append hacc (List.nodup_singleton _)
          (List.disjoint_singleton.mpr hnotin)

/-- Provenance of `buildJobs`: every produced entry either was already in
the accumulator or comes from the first (hence, on a newest-first input,
newest) file whose parsed `job_id` equals the entry's key. -/
theorem buildJobs_provenance : ∀ (fs : List JobFile) (acc : List (String × JobRec)),
    fs.Pairwise (fun a b => b.mtime ≤ a.mtime) →
    ∀ j r, (j, r) ∈ buildJobs fs acc →
      (j, r) ∈ acc ∨
      ((¬ ∃ q ∈ acc, q.1 = j) ∧
        ∃ f ∈ fs, ∃ r₀ : JobRec, f.content = .record r₀ ∧ r₀.job_id = j ∧
          r = backfillCreated f.mtime r₀ ∧
          ∀ g ∈ fs, ∀ r₁ : JobRec, g.content = .record r₁ → r₁.job_id = j →
            g.mtime ≤ f.mtime) := by
  intro fs
  induction fs with
  | nil => intro acc _ j r hp; exact Or.inl hp
  | cons f rest ih =>
    intro acc hsorted j r hp
    have hrest : rest.Pairwise (fun a b => b.mtime ≤ a.mtime) :=
      (List.pairwise_cons.mp hsorted).2
    have hhead : ∀ g ∈ rest, g.mtime ≤ f.mtime :=
      (List.pairwise_cons.mp hsorted).1
    rcases hcf : f.content with _ | s | r₂
    · rw [buildJobs_eq_bad f rest acc hcf] at hp
      rcases ih acc hrest j r hp with h | ⟨hnot, g, hg, r₀, hst⟩
      · exact Or.inl h
      · refine Or.inr ⟨hnot, g, List.mem_cons_of_mem f hg, r₀, hst.1, hst.2.1, hst.2.2.1, ?_⟩
        intro g' hg' r₁ hc₁ hid₁
        rcases List.mem_cons.mp hg' with rfl | hg'
        · rw [hcf] at hc₁; cases hc₁
        · exact hst.2.2.2 g' hg' r₁ hc₁ hid₁
    · rw [buildJobs_eq_partialObj f rest acc s hcf] at hp
      rcases ih acc hrest j r hp with h | ⟨hnot, g, hg, r₀, hst⟩
      · exact Or.inl h
      · refine Or.inr ⟨hnot, g, List.mem_cons_of_mem f hg, r₀, hst.1, hst.2.1, hst.2.2.1, ?_⟩
        intro g' hg' r₁ hc₁ hid₁
        rcases List.mem_cons.mp hg' with rfl | hg'
        · rw [hcf] at hc₁; cases hc₁
        · exact hst.2.2.2 g' hg' r₁ hc₁ hid₁
    · rw [buildJobs_eq_record f rest acc r₂ hcf] at hp
      by_cases hlk : (acc.lookup r₂.job_id).isSome = true
      · rw [if_pos hlk] at hp
        rcases ih acc hrest j r hp with h | ⟨hnot, g, hg, r₀, hst⟩
        · exact Or.inl h
        · refine Or.inr ⟨hnot, g, List.mem_cons_of_mem f hg, r₀, hst.1, hst.2.1, hst.2.2.1, ?_⟩
          intro g' hg' r₁ hc₁ hid₁
          rcases List.mem_cons.mp hg' with rfl | hg'
          · rw [hcf] at hc₁
            cases hc₁
            exact absurd ((lookup_isSome_iff _ acc).mp hlk)
              (by rw [hid₁] at hlk ⊢; exact fun h => hnot ((lookup_isSome_iff j acc).mp hlk))
          · exact hst.2.2.2 g' hg' r₁ hc₁ hid₁
      · rw [if_neg hlk] at hp
        rcases ih _ hrest j r hp with h | ⟨hnot, g, hg, r₀, hst⟩
        · rcases List.mem_append.mp h with h | h
          · exact Or.inl h
          · rcases List.mem_singleton.mp h with heq
            have hj : j = r₂.job_id := (Prod.mk.injEq _ _ _ _ ▸ heq).1
            have hr : r = backfillCreated f.mtime r₂ := (Prod.mk.injEq _ _ _ _ ▸ heq).2
            refine Or.inr ⟨?_, f, List.mem_cons_self f rest, r₂, hcf, hj.symm, hr, ?_⟩
            · intro hex
              exact hlk ((lookup_isSome_iff r₂.job_id acc).mpr (hj ▸ hex))
            · intro g' hg' r₁ hc₁ hid₁
              rcases List.mem_cons.mp hg' with rfl | hg'
              · exact le_refl _
              · exact hhead g' hg'
        · have hnotacc : ¬ ∃ q ∈ acc, q.1 = j := by
            intro ⟨q, hq, hq1⟩
            exact hnot ⟨q, List.mem_append_left _ hq, hq1⟩
          have hjneq : j ≠ r₂.job_id := by
            intro he
            exact hnot ⟨(r₂.job_id, backfillCreated f.mtime r₂),
              List.mem_append_right _ (List.mem_singleton.mpr rfl), he.symm⟩
          refine Or.inr ⟨hnotacc, g, List.mem_cons_of_mem f hg, r₀, hst.1, hst.2.1, hst.2.2.1, ?_⟩
          intro g' hg' r₁ hc₁ hid₁
          rcases List.mem_cons.mp hg' with rfl | hg'
          · rw [hcf] at hc₁
            cases hc₁
            exact absurd hid₁ (fun h => hjneq h.symm)
          · exact hst.2.2.2 g' hg' r₁ hc₁ hid₁

theorem diskSave_manifests (d : Disk) (now : Nat) (r : JobRec) :
    (diskSave d now r).manifests = d.manifests := by
  unfold diskSave
  split <;> rfl

theorem diskSave_locks (d : Disk) (now : Nat) (r : JobRec) :
    (diskSave d now r).locks = d.locks := by
  unfold diskSave
  split <;> rfl

theorem recoverStep_manifests (now : Nat) (d : Disk) (r : JobRec) :
    (recoverStep now d r).manifests = d.manifests := by
  unfold recoverStep
  split
  · rw [diskSave_manifests]
    rfl
  · rfl

theorem recoverLoop_manifests (now : Nat) :
    ∀ (js : List (String × JobRec)) (d : Disk),
      (recoverLoop now js d).2.manifests = d.manifests := by
  intro js
  induction js with
  | nil => intro d; rfl
  | cons p rest ih =>
    intro d
    obtain ⟨j, r⟩ := p
    show (recoverLoop now rest (recoverStep now d r)).2.manifests = d.manifests
    rw [ih (recoverStep now d r), recoverStep_manifests]

theorem recoverLoop_fst (now : Nat) :
    ∀ (js : List (String × JobRec)) (d : Disk),
      (recoverLoop now js d).1 = js.map (fun p => (p.1, recoverRec d.manifests now p.2)) := by
  intro js
  induction js with
  | nil => intro d; rfl
  | cons p rest ih =>
    intro d
    obtain ⟨j, r⟩ := p
    show (j, recoverRec d.manifests now r) :: (recoverLoop now rest (recoverStep now d r)).1 = _
    rw [ih (recoverStep now d r), recoverStep_manifests, List.map_cons]

theorem sortByMtimeDesc_sorted (fs : List JobFile) :
    (sortByMtimeDesc fs).Pairwise (fun a b => b.mtime ≤ a.mtime) := by
  have h := @List.sorted_mergeSort JobFile
    (fun a b => Nat.ble b.mtime a.mtime)
    (fun a b c hab hbc => by
      simp only [Nat.ble_eq] at hab hbc ⊢
      exact le_trans hbc hab)
    (fun a b => by
      simp only [Bool.or_eq_true, Nat.ble_eq]
      exact Nat.le_total b.mtime a.mtime)
    fs
  exact h.imp (fun hab => by simpa using hab)

theorem sortByMtimeDesc_perm (fs : List JobFile) : (sortByMtimeDesc fs).Perm fs :=
  List.mergeSort_perm fs _

/-- C8: the jobs map returned by `load_all` holds at most one record per
`job_id`, and each entry's record originates from the file with the most
recent modification time among the loaded files (newest `JOB_RELOAD_LIMIT`,
newest-first) carrying that `job_id` — older same-id files are silently
ignored.  The record equals that file's parsed content after timestamp
backfill and the restart-recovery pass. -/
theorem c8_load_all_one_record_per_id (d : Disk) (now : Nat) :
    ((load_all d now).1.map Prod.fst).Nodup ∧
    ∀ j r, (j, r) ∈ (load_all d now).1 →
      ∃ f ∈ (sortByMtimeDesc d.jobFiles).take JOB_RELOAD_LIMIT, ∃ r₀ : JobRec,
        f.content = .record r₀ ∧ r₀.job_id = j ∧
        r = recoverRec d.manifests now (backfillCreated f.mtime r₀) ∧
        ∀ g ∈ (sortByMtimeDesc d.jobFiles).take JOB_RELOAD_LIMIT, ∀ r₁ : JobRec,
          g.content = .record r₁ → r₁.job_id = j → g.mtime ≤ f.mtime := by
  have hfst : (load_all d now).1 =
      (buildJobs ((sortByMtimeDesc d.jobFiles).take JOB_RELOAD_LIMIT) []).map
        (fun p => (p.1, recoverRec d.manifests now p.2)) := by
    show (recoverLoop now _ d).1 = _
    exact recoverLoop_fst now _ d
  constructor
  · rw [hfst, List.map_map]
    have hcomp : (Prod.fst ∘ fun p : String × JobRec =>
        (p.1, recoverRec d.manifests now p.2)) = Prod.fst := by
      funext p
      rfl
    rw [hcomp]
    exact buildJobs_keys_nodup _ [] (by simp)
  · intro j r hmem
    rw [hfst] at hmem
    rcases List.mem_map.mp hmem with ⟨⟨j₀, r₂⟩, hp, heq⟩
    have hj : j₀ = j := (Prod.mk.injEq _ _ _ _ ▸ heq).1
    have hr : r = recoverRec d.manifests now r₂ := ((Prod.mk.injEq _ _ _ _ ▸ heq).2).symm
    subst hj
    have hsorted : ((sortByMtimeDesc d.jobFiles).take JOB_RELOAD_LIMIT).Pairwise
        (fun a b => b.mtime ≤ a.mtime) :=
      (sortByMtimeDesc_sorted d.jobFiles).sublist (List.take_sublist _ _)
    rcases buildJobs_provenance _ [] hsorted j₀ r₂ hp with h | ⟨_, f, hf, r₀, hc, hid, hback, hmax⟩
    · cases h
    · exact ⟨f, hf, r₀, hc, hid, by rw [hr, hback], hmax⟩

/-- Newest record file content for job `j1` (witness input). -/
def c8RecNew : JobRec :=
  { job_id := "j1", tenant_id := "t1", loan_id := "L1", run_id := "",
    status := "PENDING", created_at_utc := "2025-01-02T00:00:00Z",
    started_at_utc := none, finished_at_utc := none, request := .obj [],
    result := none, error := none, stdout := none, stderr := none,
    job_key := "k1" }

/-- An older record file carrying the same `job_id`. -/
def c8RecOld : JobRec :=
  { c8RecNew with status := "FAIL", created_at_utc := "2025-01-01T00:00:00Z" }

/-- A disk with two record files for the same `job_id` and different
mtimes. -/
def c8Disk : Disk :=
  { jobFiles := [⟨"t1", "L1", "j1", 10, .record c8RecOld⟩,
                 ⟨"t1", "L1", "j1", 20, .record c8RecNew⟩],
    claimFiles := [], manifests := [], locks := [] }

unseal List.merge List.mergeSort in
/-- Witness for `c8_load_all_one_record_per_id`: on `c8Disk` the returned
map holds job `j1` with the newest file's content. -/
theorem c8_load_all_one_record_per_id_witness :
    ∃ f ∈ (sortByMtimeDesc c8Disk.jobFiles).take JOB_RELOAD_LIMIT, ∃ r₀ : JobRec,
      f.content = .record r₀ ∧ r₀.job_id = "j1" ∧
      c8RecNew = recoverRec c8Disk.manifests 30 (backfillCreated f.mtime r₀) ∧
      ∀ g ∈ (sortByMtimeDesc c8Disk.jobFiles).take JOB_RELOAD_LIMIT, ∀ r₁ : JobRec,
        g.content = .record r₁ → r₁.job_id = "j1" → g.mtime ≤ f.mtime :=
  (c8_load_all_one_record_per_id c8Disk 30).2 "j1" c8RecNew (by
    have h : (load_all c8Disk 30).1 = [("j1", c8RecNew)] := rfl
    rw [h]
    exact List.mem_singleton.mpr rfl)

theorem jobFileKeyEq_iff (f : JobFile) (t l s : String) :
    jobFileKeyEq f t l s = true ↔ f.tenant = t ∧ f.loan = l ∧ f.stem = s := by
  unfold jobFileKeyEq
  simp [Bool.and_eq_true, beq_iff_eq, and_assoc]

theorem find?_unique {α : Type} (p : α → Bool) (l : List α) (a : α)
    (ha : a ∈ l) (hp : p a = true) (huniq : ∀ b ∈ l, p b = true → b = a) :
    l.find? p = some a := by
  rcases hfind : l.find? p with _ | b
  · rw [List.find?_eq_none] at hfind
    exact absurd hp (hfind a ha)
  · have hb : p b = true := List.find?_some hfind
    have hbl : b ∈ l := List.mem_of_find?_eq_some hfind
    rw [huniq b hbl hb]

theorem recoverRec_tenant (mans : List ((String × String × String) × StrDict))
    (now : Nat) (r : JobRec) : (recoverRec mans now r).tenant_id = r.tenant_id := by
  unfold recoverRec
  split
  · split <;> rfl
  · rfl

theorem recoverRec_loan (mans : List ((String × String × String) × StrDict))
    (now : Nat) (r : JobRec) : (recoverRec mans now r).loan_id = r.loan_id := by
  unfold recoverRec
  split
  · split <;> rfl
  · rfl

theorem recoverRec_job_id (mans : List ((String × String × String) × StrDict))
    (now : Nat) (r : JobRec) : (recoverRec mans now r).job_id = r.job_id := by
  unfold recoverRec
  split
  · split <;> rfl
  · rfl

theorem lockRelease_not_mem (d : Disk) (t l : String) :
    (t, l) ∉ (lockRelease d t l).locks := by
  intro hmem
  have hcond := (List.mem_filter.mp hmem).2
  simp at hcond

theorem recoverStep_locks_subset (now : Nat) (d : Disk) (r : JobRec) :
    ∀ x ∈ (recoverStep now d r).locks, x ∈ d.locks := by
  intro x hx
  unfold recoverStep at hx
  split at hx
  · rw [diskSave_locks] at hx
    exact (List.mem_filter.mp hx).1
  · exact hx

theorem recoverLoop_locks_subset (now : Nat) :
    ∀ (js : List (String × JobRec)) (d : Disk),
      ∀ x ∈ (recoverLoop now js d).2.locks, x ∈ d.locks := by
  intro js
  induction js with
  | nil => intro d x hx; exact hx
  | cons p rest ih =>
    intro d x hx
    obtain ⟨j, r⟩ := p
    have hx' : x ∈ (recoverLoop now rest (recoverStep now d r)).2.locks := hx
    exact recoverStep_locks_subset now d r x (ih (recoverStep now d r) x hx')

theorem recoverLoop_lock_cleared (now : Nat) :
    ∀ (js : List (String × JobRec)) (d : Disk) (j : String) (r : JobRec),
      (j, r) ∈ js → r.status = "RUNNING" → r.tenant_id ≠ "" → r.loan_id ≠ "" →
      (r.tenant_id, r.loan_id) ∉ (recoverLoop now js d).2.locks := by
  intro js
  induction js with
  | nil => intro d j r hmem; cases hmem
  | cons p rest ih =>
    intro d j r hmem hrun ht hl
    obtain ⟨j₀, r₀⟩ := p
    rcases List.mem_cons.mp hmem with heq | hmem'
    · have hr : r = r₀ := (Prod.mk.injEq _ _ _ _ ▸ heq).2
      rw [hr] at hrun ht hl ⊢
      intro hcontra
      have h1 : (r₀.tenant_id, r₀.loan_id) ∈ (recoverStep now d r₀).locks :=
        recoverLoop_locks_subset now rest (recoverStep now d r₀) _ hcontra
      unfold recoverStep at h1
      rw [if_pos ⟨hrun, ht, hl⟩, diskSave_locks] at h1
      exact lockRelease_not_mem d r₀.tenant_id r₀.loan_id h1
    · exact ih (recoverStep now d r₀) j r hmem' hrun ht hl

theorem diskSave_file (d : Disk) (now : Nat) (r : JobRec)
    (ht : r.tenant_id ≠ "") (hl : r.loan_id ≠ "") (hj : r.job_id ≠ "") :
    (⟨r.tenant_id, r.loan_id, r.job_id, now, .record r⟩ : JobFile) ∈ (diskSave d now r).jobFiles ∧
      ∀ g ∈ (diskSave d now r).jobFiles,
        jobFileKeyEq g r.tenant_id r.loan_id r.job_id = true →
        g = ⟨r.tenant_id, r.loan_id, r.job_id, now, .record r⟩ := by
  have hguard : ¬ (r.tenant_id = "" ∨ r.loan_id = "" ∨ r.job_id = "") := by
    rintro (h | h | h) <;> [exact ht h; exact hl h; exact hj h]
  rw [diskSave, if_neg hguard]
  constructor
  · exact List.mem_append_right _ (List.mem_singleton.mpr rfl)
  · intro g hg hkey
    rcases List.mem_append.mp hg with hg | hg
    · have hcond := (List.mem_filter.mp hg).2
      rw [hkey] at hcond
      cases hcond
    · exact List.mem_singleton.mp hg

theorem recoverStep_key_invariant (now : Nat) (d : Disk) (r : JobRec)
    (t l stem : String) (F : JobFile) (hne : r.job_id ≠ stem)
    (hFkey : jobFileKeyEq F t l stem = true)
    (hF : F ∈ d.jobFiles)
    (huniq : ∀ g ∈ d.jobFiles, jobFileKeyEq g t l stem = true → g = F) :
    F ∈ (recoverStep now d r).jobFiles ∧
      ∀ g ∈ (recoverStep now d r).jobFiles, jobFileKeyEq g t l stem = true → g = F := by
  have hstem : (recoverRec d.manifests now r).job_id = r.job_id := recoverRec_job_id _ _ _
  have hFstem : F.stem = stem := ((jobFileKeyEq_iff F t l stem).mp hFkey).2.2
  unfold recoverStep
  split
  · rw [diskSave]
    split
    · exact ⟨hF, huniq⟩
    · constructor
      · refine List.mem_append_left _ (List.mem_filter.mpr ⟨hF, ?_⟩)
        rw [Bool.not_eq_true', Bool.eq_false_iff]
        intro hkey
        have h := (jobFileKeyEq_iff _ _ _ _).mp hkey
        exact hne (by rw [← hstem, ← h.2.2, hFstem])
      · intro g hg hkey
        rcases List.mem_append.mp hg with hg | hg
        · exact huniq g (List.mem_filter.mp hg).1 hkey
        · rcases List.mem_singleton.mp hg with rfl
          have h := (jobFileKeyEq_iff _ t l stem).mp hkey
          exact absurd (by rw [← hstem]; exact h.2.2) hne
  · exact ⟨hF, huniq⟩

theorem recoverLoop_key_invariant (now : Nat) :
    ∀ (js : List (String × JobRec)) (d : Disk) (t l stem : String) (F : JobFile),
      (∀ p ∈ js, (p.2 : JobRec).job_id ≠ stem) →
      jobFileKeyEq F t l stem = true →
      F ∈ d.jobFiles →
      (∀ g ∈ d.jobFiles, jobFileKeyEq g t l stem = true → g = F) →
      F ∈ (recoverLoop now js d).2.jobFiles ∧
        ∀ g ∈ (recoverLoop now js d).2.jobFiles, jobFileKeyEq g t l stem = true → g = F := by
  intro js
  induction js with
  | nil => intro d t l stem F _ _ hF huniq; exact ⟨hF, huniq⟩
  | cons p rest ih =>
    intro d t l stem F hns hFkey hF huniq
    obtain ⟨j, r⟩ := p
    have hstep := recoverStep_key_invariant now d r t l stem F
      (hns (j, r) (List.mem_cons_self _ _)) hFkey hF huniq
    exact ih (recoverStep now d r) t l stem F
      (fun q hq => hns q (List.mem_cons_of_mem _ hq)) hFkey hstep.1 hstep.2

theorem recoverLoop_file_saved (now : Nat) :
    ∀ (js : List (String × JobRec)) (d : Disk),
      (js.map Prod.fst).Nodup →
      (∀ p ∈ js, (p.2 : JobRec).job_id = p.1) →
      ∀ j r, (j, r) ∈ js →
        r.status = "RUNNING" → r.tenant_id ≠ "" → r.loan_id ≠ "" → r.job_id ≠ "" →
        (⟨r.tenant_id, r.loan_id, r.job_id, now,
            .record (recoverRec d.manifests now r)⟩ : JobFile) ∈
              (recoverLoop now js d).2.jobFiles ∧
          ∀ g ∈ (recoverLoop now js d).2.jobFiles,
            jobFileKeyEq g r.tenant_id r.loan_id r.job_id = true →
            g = ⟨r.tenant_id, r.loan_id, r.job_id, now,
              .record (recoverRec d.manifests now r)⟩ := by
  intro js
  induction js with
  | nil => intro d _ _ j r hmem; cases hmem
  | cons p rest ih =>
    intro d hnd hcoh j r hmem hrun ht hl hj
    obtain ⟨j₀, r₀⟩ := p
    rcases List.mem_cons.mp hmem with heq | hmem'
    · have hr : r = r₀ := (Prod.mk.injEq _ _ _ _ ▸ heq).2
      subst hr
      have hid : r.job_id = j₀ := hcoh (j₀, r) (List.mem_cons_self _ _)
      show _ ∈ (recoverLoop now rest (recoverStep now d r)).2.jobFiles ∧ _
      have hstep : recoverStep now d r =
          diskSave (lockRelease d r.tenant_id r.loan_id) now
            (recoverRec d.manifests now r) := by
        unfold recoverStep
        rw [if_pos ⟨hrun, ht, hl⟩]
      have hrt : (recoverRec d.manifests now r).tenant_id = r.tenant_id :=
        recoverRec_tenant _ _ _
      have hrl : (recoverRec d.manifests now r).loan_id = r.loan_id :=
        recoverRec_loan _ _ _
      have hrj : (recoverRec d.manifests now r).job_id = r.job_id :=
        recoverRec_job_id _ _ _
      have hsave := diskSave_file (lockRelease d r.tenant_id r.loan_id) now
        (recoverRec d.manifests now r)
        (by rw [hrt]; exact ht) (by rw [hrl]; exact hl) (by rw [hrj]; exact hj)
      rw [hrt, hrl, hrj] at hsave
      rw [← hstep] at hsave
      have hFkey : jobFileKeyEq
          (⟨r.tenant_id, r.loan_id, r.job_id, now,
            .record (recoverRec d.manifests now r)⟩ : JobFile)
          r.tenant_id r.loan_id r.job_id = true :=
        (jobFileKeyEq_iff _ _ _ _).mpr ⟨rfl, rfl, rfl⟩
      have hns : ∀ q ∈ rest, (q.2 : JobRec).job_id ≠ r.job_id := by
        intro q hq
        have hq1 : q.2.job_id = q.1 := hcoh q (List.mem_cons_of_mem _ hq)
        have hq2 : q.1 ≠ j₀ := by
          intro hcontra
          have hmemkey : j₀ ∈ rest.map Prod.fst :=
            List.mem_map.mpr ⟨q, hq, hcontra⟩
          have hnd2 : (j₀ :: rest.map Prod.fst).Nodup := by
            rw [List.map_cons] at hnd
            exact hnd
          exact (List.nodup_cons.mp hnd2).1 hmemkey
        rw [hq1, hid]
        exact hq2
      exact recoverLoop_key_invariant now rest (recoverStep now d r)
        r.tenant_id r.loan_id r.job_id _ hns hFkey hsave.1 hsave.2
    · have hnd2 : (j₀ :: rest.map Prod.fst).Nodup := by
        rw [List.map_cons] at hnd
        exact hnd
      have hnd' : (rest.map Prod.fst).Nodup := (List.nodup_cons.mp hnd2).2
      have hcoh' : ∀ q ∈ rest, (q.2 : JobRec).job_id = q.1 :=
        fun q hq => hcoh q (List.mem_cons_of_mem _ hq)
      have hres := ih (recoverStep now d r₀) hnd' hcoh' j r hmem' hrun ht hl hj
      rw [recoverStep_manifests] at hres
      exact hres

theorem recoverRec_success (mans : List ((String × String × String) × StrDict))
    (now : Nat) (r : JobRec) (hrun : r.status = "RUNNING")
    (ht : r.tenant_id ≠ "") (hl : r.loan_id ≠ "") (hrid : r.run_id ≠ "")
    (s : StrDict)
    (hs : resultFromManifests mans r.tenant_id r.loan_id r.run_id = some s) :
    recoverRec mans now r =
      { r with
        status := "SUCCESS"
        finished_at_utc := some (tsStr now)
        result := some s
        error := none } := by
  unfold recoverRec
  rw [if_pos ⟨hrun, ht, hl⟩, if_pos hrid, hs]

theorem recoverRec_fail (mans : List ((String × String × String) × StrDict))
    (now : Nat) (r : JobRec) (hrun : r.status = "RUNNING")
    (ht : r.tenant_id ≠ "") (hl : r.loan_id ≠ "")
    (hnone : r.run_id = "" ∨
      resultFromManifests mans r.tenant_id r.loan_id r.run_id = none) :
    recoverRec mans now r =
      { r with
        status := "FAIL"
        finished_at_utc := some (tsStr now)
        error := some (pyTruncate
          "Recovered after restart: job was RUNNING but no active worker"
          ERROR_TRUNCATE) } := by
  unfold recoverRec
  rw [if_pos ⟨hrun, ht, hl⟩]
  rcases hnone with h | h
  · rw [if_neg (fun hne => hne h)]
  · by_cases hrid : r.run_id ≠ ""
    · rw [if_pos hrid, h]
    · rw [if_neg hrid]

theorem retentionSweep_locks (collected : List JobFile) (now : Nat) (d : Disk) :
    (retentionSweep collected now d).locks = d.locks := rfl

theorem retentionSweep_keeps (collected : List JobFile) (now : Nat) (d : Disk)
    (F : JobFile) (hF : F ∈ d.jobFiles)
    (hsafe : ∀ c ∈ collected, jobFileKeyEq c F.tenant F.loan F.stem = true →
      ¬ (retentionSec < now - c.mtime)) :
    F ∈ (retentionSweep collected now d).jobFiles := by
  refine List.mem_filter.mpr ⟨hF, ?_⟩
  rw [Bool.not_eq_true', Bool.eq_false_iff]
  intro hany
  rcases List.any_eq_true.mp hany with ⟨c, hc, hcond⟩
  rw [Bool.and_eq_true] at hcond
  exact hsafe c hc hcond.1 (of_decide_eq_true hcond.2)

theorem retentionSweep_subset (collected : List JobFile) (now : Nat) (d : Disk) :
    ∀ g ∈ (retentionSweep collected now d).jobFiles, g ∈ d.jobFiles := by
  intro g hg
  exact (List.mem_filter.mp hg).1

/-- A record that is `RUNNING` on disk but whose JSON object carries no
(or empty) `tenant_id`/`loan_id` — `load_all` loads it (it has `job_id`
and `status`) but the recovery pass skips it (`if not tenant_id or not
loan_id: continue`). -/
def c2xRec : JobRec :=
  { job_id := "jx", tenant_id := "", loan_id := "", run_id := "",
    status := "RUNNING", created_at_utc := "2025-01-01T00:00:00Z",
    started_at_utc := none, finished_at_utc := none, request := .obj [],
    result := none, error := none, stdout := none, stderr := none,
    job_key := "kx" }

/-- A disk holding only the file with that record. -/
def c2xDisk : Disk :=
  { jobFiles := [⟨"t1", "L1", "jx", 10, .record c2xRec⟩],
    claimFiles := [], manifests := [], locks := [] }

unseal List.merge List.mergeSort in
/-- C2 counterexample: `c2xRec` is loaded by `load_all` with persisted
status `RUNNING`, yet `load_all` neither sets it to `SUCCESS` nor to
`FAIL` — the record comes back still `RUNNING` and the store is completely
unchanged, because the recovery pass skips records whose `tenant_id` or
`loan_id` is missing or empty. -/
theorem c2_running_without_ids_left_running :
    c2xRec.status = "RUNNING" ∧
    (load_all c2xDisk 20).1 = [("jx", c2xRec)] ∧
    (load_all c2xDisk 20).2 = c2xDisk :=
  ⟨rfl, rfl, rfl⟩

/-- C2 (amended): for every record loaded by `load_all` whose persisted
status is `RUNNING` and which carries a nonempty `tenant_id` and
`loan_id`: the returned map holds the corrected record — `SUCCESS` with
`result` populated from the manifest when the job's run id resolves to a
success manifest, else `FAIL` with the synthetic recovery error — the
Resource Lock for that `(tenant, loan)` is absent from the resulting
store, and, provided the record's `job_id` is nonempty and its file is not
simultaneously due for retention pruning, the corrected record is
persisted back to disk.  (Records lacking `tenant_id`/`loan_id` are left
`RUNNING` untouched, and a record with empty `job_id` is corrected in
memory but silently not persisted — `save` drops it.) -/
theorem c2_running_recovery (d : Disk) (now : Nat) (j : String) (r : JobRec)
    (hmem : (j, r) ∈ loadedJobs d) (hrun : r.status = "RUNNING")
    (ht : r.tenant_id ≠ "") (hl : r.loan_id ≠ "") :
    ((j, recoverRec d.manifests now r) ∈ (load_all d now).1) ∧
    ((r.tenant_id, r.loan_id) ∉ (load_all d now).2.locks) ∧
    (∀ s : StrDict, r.run_id ≠ "" →
      resultFromManifests d.manifests r.tenant_id r.loan_id r.run_id = some s →
      recoverRec d.manifests now r =
        { r with
          status := "SUCCESS"
          finished_at_utc := some (tsStr now)
          result := some s
          error := none }) ∧
    ((r.run_id = "" ∨
        resultFromManifests d.manifests r.tenant_id r.loan_id r.run_id = none) →
      recoverRec d.manifests now r =
        { r with
          status := "FAIL"
          finished_at_utc := some (tsStr now)
          error := some (pyTruncate
            "Recovered after restart: job was RUNNING but no active worker"
            ERROR_TRUNCATE) }) ∧
    (r.job_id ≠ "" →
      (∀ g ∈ d.jobFiles, jobFileKeyEq g r.tenant_id r.loan_id r.job_id = true →
        ¬ (retentionSec < now - g.mtime)) →
      jobFileAt (load_all d now).2 r.tenant_id r.loan_id r.job_id =
        some ⟨r.tenant_id, r.loan_id, r.job_id, now,
          .record (recoverRec d.manifests now r)⟩) := by
  refine ⟨?_, ?_, ?_, ?_, ?_⟩
  · have hfst : (load_all d now).1 =
        (loadedJobs d).map (fun p => (p.1, recoverRec d.manifests now p.2)) := by
      show (recoverLoop now _ d).1 = _
      exact recoverLoop_fst now _ d
    rw [hfst]
    exact List.mem_map.mpr ⟨(j, r), hmem, rfl⟩
  · have hlocks : (load_all d now).2.locks = (recoverLoop now (loadedJobs d) d).2.locks :=
      retentionSweep_locks _ _ _
    rw [hlocks]
    exact recoverLoop_lock_cleared now (loadedJobs d) d j r hmem hrun ht hl
  · intro s hrid hs
    exact recoverRec_success d.manifests now r hrun ht hl hrid s hs
  · intro hnone
    exact recoverRec_fail d.manifests now r hrun ht hl hnone
  · intro hj hsafe
    have hnodup : ((loadedJobs d).map Prod.fst).Nodup :=
      buildJobs_keys_nodup _ [] (by simp)
    have hcoh : ∀ p ∈ loadedJobs d, (p.2 : JobRec).job_id = p.1 :=
      buildJobs_coherent _ [] (by simp)
    have hsaved := recoverLoop_file_saved now (loadedJobs d) d hnodup hcoh
      j r hmem hrun ht hl hj
    have hkeep : (⟨r.tenant_id, r.loan_id, r.job_id, now,
        .record (recoverRec d.manifests now r)⟩ : JobFile) ∈ (load_all d now).2.jobFiles := by
      refine retentionSweep_keeps _ now _ _ hsaved.1 ?_
      intro c hc hkey
      exact hsafe c ((sortByMtimeDesc_perm d.jobFiles).mem_iff.mp hc) hkey
    have huniqf : ∀ g ∈ (load_all d now).2.jobFiles,
        jobFileKeyEq g r.tenant_id r.loan_id r.job_id = true →
        g = ⟨r.tenant_id, r.loan_id, r.job_id, now,
          .record (recoverRec d.manifests now r)⟩ := by
      intro g hg hkey
      exact hsaved.2 g (retentionSweep_subset _ now _ g hg) hkey
    exact find?_unique _ _ _ hkeep
      ((jobFileKeyEq_iff _ _ _ _).mpr ⟨rfl, rfl, rfl⟩) huniqf

/-- A `RUNNING` record with full ids and no run id (witness input for the
fail-branch of recovery). -/
def c2wRec : JobRec :=
  { job_id := "jw", tenant_id := "t1", loan_id := "L1", run_id := "",
    status := "RUNNING", created_at_utc := "2025-01-01T00:00:00Z",
    started_at_utc := some "2025-01-01T00:00:01Z", finished_at_utc := none,
    request := .obj [], result := none, error := none, stdout := none,
    stderr := none, job_key := "kw" }

/-- A disk holding that record's file and the (dead) holder's loan lock. -/
def c2wDisk : Disk :=
  { jobFiles := [⟨"t1", "L1", "jw", 10, .record c2wRec⟩],
    claimFiles := [], manifests := [], locks := [("t1", "L1")] }

unseal List.merge List.mergeSort in
/-- Witness for `c2_running_recovery` at the concrete store `c2wDisk`. -/
theorem c2_running_recovery_witness :
    (("jw", recoverRec c2wDisk.manifests 50 c2wRec) ∈ (load_all c2wDisk 50).1) ∧
    ((c2wRec.tenant_id, c2wRec.loan_id) ∉ (load_all c2wDisk 50).2.locks) ∧
    (∀ s : StrDict, c2wRec.run_id ≠ "" →
      resultFromManifests c2wDisk.manifests c2wRec.tenant_id c2wRec.loan_id
        c2wRec.run_id = some s →
      recoverRec c2wDisk.manifests 50 c2wRec =
        { c2wRec with
          status := "SUCCESS"
          finished_at_utc := some (tsStr 50)
          result := some s
          error := none }) ∧
    ((c2wRec.run_id = "" ∨
        resultFromManifests c2wDisk.manifests c2wRec.tenant_id c2wRec.loan_id
          c2wRec.run_id = none) →
      recoverRec c2wDisk.manifests 50 c2wRec =
        { c2wRec with
          status := "FAIL"
          finished_at_utc := some (tsStr 50)
          error := some (pyTruncate
            "Recovered after restart: job was RUNNING but no active worker"
            ERROR_TRUNCATE) }) ∧
    (c2wRec.job_id ≠ "" →
      (∀ g ∈ c2wDisk.jobFiles,
        jobFileKeyEq g c2wRec.tenant_id c2wRec.loan_id c2wRec.job_id = true →
        ¬ (retentionSec < 50 - g.mtime)) →
      jobFileAt (load_all c2wDisk 50).2 c2wRec.tenant_id c2wRec.loan_id
          c2wRec.job_id =
        some ⟨c2wRec.tenant_id, c2wRec.loan_id, c2wRec.job_id, 50,
          .record (recoverRec c2wDisk.manifests 50 c2wRec)⟩) :=
  c2_running_recovery c2wDisk 50 "jw" c2wRec
    (by
      have h : loadedJobs c2wDisk = [("jw", c2wRec)] := rfl
      rw [h]
      exact List.mem_singleton.mpr rfl)
    rfl (by decide) (by decide)

/-! ## API startup: orphan reconciliation after crash recovery
(`loan_api._startup`, `_find_orphaned_running_jobs`) -/

/-- `_find_orphaned_running_jobs` (`loan_api.py` lines 445-491): scan the
raw on-disk job files for records whose status is `RUNNING`, with a truthy
`job_id`, whose systemd scope is still active; return
`(job_id, tenant_id, loan_id, run_id)` tuples.  Scope liveness
(`systemctl is-active`) is an external observation, passed in as `alive`. -/
def findOrphanedRunningJobs (d : Disk) (alive : String → Bool) :
    List (String × String × String × String) :=
  d.jobFiles.filterMap (fun f =>
    match f.content with
    | .record r =>
      if r.status = "RUNNING" ∧ r.job_id ≠ "" ∧ alive r.job_id then
        some (r.job_id, r.tenant_id, r.loan_id, r.run_id)
      else none
    | _ => none)

/-- In-place update of the jobs dict at one key (`_service._jobs[job_id]
[...] = ...`). -/
def updateJobsAssoc (js : List (String × JobRec)) (j : String) (r : JobRec) :
    List (String × JobRec) :=
  js.map (fun p => if p.1 = j then (j, r) else p)

/-- Step 3 of `_startup` (`loan_api.py` lines 593-601): for each orphaned
job id still present in the jobs dict, set its status back to `RUNNING`,
clear `finished_at_utc` and `error`, and persist; the watcher thread spawn
has no effect on the state modelled here. -/
def restoreOrphans (now : Nat) :
    List (String × String × String × String) → List (String × JobRec) → Disk →
      List (String × JobRec) × Disk
  | [], js, d => (js, d)
  | (jid, _, _, _) :: rest, js, d =>
    match js.lookup jid with
    | none => restoreOrphans now rest js d
    | some r =>
      restoreOrphans now rest
        (updateJobsAssoc js jid
          { r with status := "RUNNING", finished_at_utc := none, error := none })
        (diskSave d now
          { r with status := "RUNNING", finished_at_utc := none, error := none })

/-- `loan_api._startup` (lines 577-601): inventory orphaned `RUNNING` jobs
whose scope is alive, run the standard `load_all` reload (which recovers
every `RUNNING` record to a terminal status), then restore the orphaned
ones back to `RUNNING`. -/
def startup (d : Disk) (alive : String → Bool) (now : Nat) :
    List (String × JobRec) × Disk :=
  restoreOrphans now (findOrphanedRunningJobs d alive) (load_all d now).1 (load_all d now).2

/-- Read a job record's status straight off the disk model. -/
def diskStatusAt (d : Disk) (t l stem : String) : Option String :=
  match jobFileAt d t l stem with
  | some f =>
    match f.content with
    | .record r => some r.status
    | _ => none
  | none => none

/-- A `RUNNING` record whose systemd scope is still alive at restart. -/
def c4Rec : JobRec :=
  { job_id := "j1", tenant_id := "t1", loan_id := "L1", run_id := "",
    status := "RUNNING", created_at_utc := "2025-01-01T00:00:00Z",
    started_at_utc := some "2025-01-01T00:00:01Z", finished_at_utc := none,
    request := .obj [], result := none, error := none, stdout := none,
    stderr := none, job_key := "k1" }

/-- The disk at API startup: just that record's file. -/
def c4Disk : Disk :=
  { jobFiles := [⟨"t1", "L1", "j1", 10, .record c4Rec⟩],
    claimFiles := [], manifests := [], locks := [] }

/-- Scope liveness: job `j1`'s unit is still active. -/
def c4Alive : String → Bool := fun s => s == "j1"

unseal List.merge List.mergeSort in
/-- C4 counterexample: during `_startup`, `load_all` first recovers the
`RUNNING` job `j1` to `FAIL` and persists that terminal record to disk;
the orphan-reconciliation step of the same startup then rewrites the very
same record — in memory and on disk — back to `RUNNING`.  A record that
was `FAIL` on disk is thus rewritten to `RUNNING`, refuting the claim that
no operation ever rewrites a terminal record backwards. -/
theorem c4_orphan_restore_rewrites_terminal :
    diskStatusAt (load_all c4Disk 50).2 "t1" "L1" "j1" = some "FAIL" ∧
    diskStatusAt (startup c4Disk c4Alive 50).2 "t1" "L1" "j1" = some "RUNNING" ∧
    ((startup c4Disk c4Alive 50).1.lookup "j1").map JobRec.status = some "RUNNING" :=
  ⟨rfl, rfl, rfl⟩

theorem restoreOrphans_eq_none (now : Nat) (jid t l rid : String)
    (rest : List (String × String × String × String))
    (js : List (String × JobRec)) (d : Disk) (hlk : js.lookup jid = none) :
    restoreOrphans now ((jid, t, l, rid) :: rest) js d =
      restoreOrphans now rest js d := by
  rw [restoreOrphans, hlk]

theorem restoreOrphans_eq_some (now : Nat) (jid t l rid : String)
    (rest : List (String × String × String × String))
    (js : List (String × JobRec)) (d : Disk) (r : JobRec)
    (hlk : js.lookup jid = some r) :
    restoreOrphans now ((jid, t, l, rid) :: rest) js d =
      restoreOrphans now rest
        (updateJobsAssoc js jid
          { r with status := "RUNNING", finished_at_utc := none, error := none })
        (diskSave d now
          { r with status := "RUNNING", finished_at_utc := none, error := none }) := by
  rw [restoreOrphans, hlk]

theorem updateJobsAssoc_mem (js : List (String × JobRec)) (j : String)
    (rnew : JobRec) (j' : String) (r' : JobRec)
    (h : (j', r') ∈ updateJobsAssoc js j rnew) :
    (j', r') ∈ js ∨ (j' = j ∧ r' = rnew) := by
  rcases List.mem_map.mp h with ⟨p, hp, heq⟩
  by_cases hpj : p.1 = j
  · rw [if_pos hpj] at heq
    right
    exact ⟨(Prod.mk.injEq _ _ _ _ ▸ heq).1.symm, (Prod.mk.injEq _ _ _ _ ▸ heq).2.symm⟩
  · rw [if_neg hpj] at heq
    left
    rw [← heq]
    exact hp

theorem restoreOrphans_mem (now : Nat) :
    ∀ (os : List (String × String × String × String))
      (js : List (String × JobRec)) (d : Disk) (j : String) (r' : JobRec),
      (j, r') ∈ (restoreOrphans now os js d).1 →
      (j, r') ∈ js ∨ (r'.status = "RUNNING" ∧ ∃ o ∈ os, (o : String × String × String × String).1 = j) := by
  intro os
  induction os with
  | nil => intro js d j r' h; exact Or.inl h
  | cons o rest ih =>
    intro js d j r' h
    obtain ⟨jid, t, l, rid⟩ := o
    rcases hlk : js.lookup jid with _ | r
    · rw [restoreOrphans_eq_none now jid t l rid rest js d hlk] at h
      rcases ih js d j r' h with h1 | ⟨h1, o', ho', hoj⟩
      · exact Or.inl h1
      · exact Or.inr ⟨h1, o', List.mem_cons_of_mem _ ho', hoj⟩
    · rw [restoreOrphans_eq_some now jid t l rid rest js d r hlk] at h
      rcases ih _ _ j r' h with h1 | ⟨h1, o', ho', hoj⟩
      · rcases updateJobsAssoc_mem js jid _ j r' h1 with h2 | ⟨h2, h3⟩
        · exact Or.inl h2
        · refine Or.inr ⟨by rw [h3], (jid, t, l, rid), List.mem_cons_self _ _, h2.symm⟩
      · exact Or.inr ⟨h1, o', List.mem_cons_of_mem _ ho', hoj⟩

theorem findOrphans_src (d : Disk) (alive : String → Bool) :
    ∀ o ∈ findOrphanedRunningJobs d alive,
      ∃ f ∈ d.jobFiles, ∃ r₀ : JobRec, f.content = .record r₀ ∧
        r₀.job_id = (o : String × String × String × String).1 ∧
        r₀.status = "RUNNING" := by
  intro o ho
  rcases List.mem_filterMap.mp ho with ⟨f, hf, hsome⟩
  rcases hc : f.content with _ | s | r
  · rw [hc] at hsome
    cases hsome
  · rw [hc] at hsome
    cases hsome
  · rw [hc] at hsome
    have hsome' : (if r.status = "RUNNING" ∧ r.job_id ≠ "" ∧ alive r.job_id = true then
        some (r.job_id, r.tenant_id, r.loan_id, r.run_id) else none) = some o := hsome
    by_cases hcond : r.status = "RUNNING" ∧ r.job_id ≠ "" ∧ alive r.job_id = true
    · rw [if_pos hcond] at hsome'
      refine ⟨f, hf, r, hc, ?_, hcond.1⟩
      rw [← Option.some.inj hsome']
    · rw [if_neg hcond] at hsome'
      cases hsome'

theorem recoverRec_cases (mans : List ((String × String × String) × StrDict))
    (now : Nat) (x : JobRec) :
    (recoverRec mans now x).status = "SUCCESS" ∨
    (recoverRec mans now x).status = "FAIL" ∨ recoverRec mans now x = x := by
  unfold recoverRec
  split
  · split
    · exact Or.inl rfl
    · exact Or.inr (Or.inl rfl)
  · exact Or.inr (Or.inr rfl)

theorem load_all_status_src (d : Disk) (now : Nat) (j : String) (r' : JobRec)
    (hmem : (j, r') ∈ (load_all d now).1)
    (hst : r'.status = "RUNNING" ∨ r'.status = "PENDING") :
    ∃ f ∈ d.jobFiles, ∃ r₀ : JobRec, f.content = .record r₀ ∧ r₀.job_id = j ∧
      r₀.status = r'.status := by
  have hfst : (load_all d now).1 =
      (loadedJobs d).map (fun p => (p.1, recoverRec d.manifests now p.2)) := by
    show (recoverLoop now _ d).1 = _
    exact recoverLoop_fst now _ d
  rw [hfst] at hmem
  rcases List.mem_map.mp hmem with ⟨⟨j₀, r₂⟩, hp, heq⟩
  have hj : j₀ = j := (Prod.mk.injEq _ _ _ _ ▸ heq).1
  have hr : recoverRec d.manifests now r₂ = r' := (Prod.mk.injEq _ _ _ _ ▸ heq).2
  subst hj
  rcases recoverRec_cases d.manifests now r₂ with hS | hF | hid2
  · exfalso
    rw [hr] at hS
    rcases hst with h | h <;> rw [h] at hS <;> exact absurd hS (by decide)
  · exfalso
    rw [hr] at hF
    rcases hst with h | h <;> rw [h] at hF <;> exact absurd hF (by decide)
  · rw [hid2] at hr
    have hsorted : ((sortByMtimeDesc d.jobFiles).take JOB_RELOAD_LIMIT).Pairwise
        (fun a b => b.mtime ≤ a.mtime) :=
      (sortByMtimeDesc_sorted d.jobFiles).sublist (List.take_sublist _ _)
    rcases buildJobs_provenance _ [] hsorted j₀ r₂ hp with h | ⟨_, f, hf, r₀, hc, hid, hback, _⟩
    · cases h
    · refine ⟨f, ?_, r₀, hc, hid, ?_⟩
      · exact (sortByMtimeDesc_perm d.jobFiles).mem_iff.mp (List.mem_of_mem_take hf)
      · rw [← hr, hback, backfillCreated_status]

/-- The startup leg of the forward-only analysis: after the whole
`_startup` (the `load_all` reload — crash recovery plus retention — and
the orphan-reconciliation step), every record that is `RUNNING` or
`PENDING` had exactly that status in some on-disk record file before
startup — a record that was terminal on disk is never brought back, since
the orphan restore only fires for jobs whose raw on-disk status at
startup entry was still `RUNNING` with a live supervision unit. -/
theorem startup_nonterminal_needs_disk_source (d : Disk) (alive : String → Bool)
    (now : Nat) (j : String) (r' : JobRec)
    (hmem : (j, r') ∈ (startup d alive now).1)
    (hst : r'.status = "RUNNING" ∨ r'.status = "PENDING") :
    ∃ f ∈ d.jobFiles, ∃ r₀ : JobRec, f.content = .record r₀ ∧ r₀.job_id = j ∧
      r₀.status = r'.status := by
  rcases restoreOrphans_mem now (findOrphanedRunningJobs d alive)
      (load_all d now).1 (load_all d now).2 j r' hmem with hload | ⟨hstR, o, ho, hoj⟩
  · exact load_all_status_src d now j r' hload hst
  · rcases findOrphans_src d alive o ho with ⟨f, hf, r₀, hc, hid, hR⟩
    refine ⟨f, hf, r₀, hc, by rw [hoj] at hid; exact hid, by rw [hstR, hR]⟩

/-! ## Enqueue paths (`job_runner.enqueue_job` and
`JobService.enqueue_job`) -/

/-- `req.get(k)` on a JSON-object request. -/
def jsonGet (j : JsonVal) (k : String) : Option JsonVal :=
  match j with
  | .obj fs => fs.lookup k
  | _ => none

/-- `k in req` (key presence, regardless of value). -/
def jsonHasKey (j : JsonVal) (k : String) : Bool := (jsonGet j k).isSome

/-- `req.get("run_id")` as the enqueue paths use it.  The API layer's
request model types `run_id` as an optional string, so the field is a
string when present; Python truthiness treats `None` and `""` alike, and
both are modelled as `""`. -/
def reqRunId (req : JsonVal) : String :=
  match jsonGet req "run_id" with
  | some (.str s) => s
  | _ => ""

/-- The `{job_id, status, status_url}` submission response. -/
structure EnqResp where
  job_id : String
  status : String
  status_url : String
  deriving Repr

/-- The orchestrator's mutable state: the in-memory jobs dict
(`JOBS` / `JobService._jobs`), the job-key index (`JOB_KEY_INDEX` /
`JobKeyIndexImpl`), and the disk store. -/
structure SvcState where
  jobs : List (String × JobRec)
  keyIndex : List (String × String)
  disk : Disk
  deriving Repr

/-- Python dict assignment `d[k] = v`: overwrite in place if the key is
present, else append. -/
def dictSet {β : Type} (l : List (String × β)) (k : String) (v : β) :
    List (String × β) :=
  if (l.lookup k).isSome then l.map (fun p => if p.1 = k then (k, v) else p)
  else l ++ [(k, v)]

/-- The synthesized `SUCCESS` record of the manifest short-circuit
(`job_runner.enqueue_job` lines 336-353; identically `service.py` lines
62-78 before the stdout mutation). -/
def mkShortCircuitJob (job_id tenant_id loan_id run_id : String) (req : JsonVal)
    (rs : StrDict) (job_key : String) (now : Nat) : JobRec :=
  { job_id := job_id, tenant_id := tenant_id, loan_id := loan_id,
    run_id := run_id, status := "SUCCESS", created_at_utc := tsStr now,
    started_at_utc := some (tsStr now), finished_at_utc := some (tsStr now),
    request := req, result := some rs, error := none, stdout := none,
    stderr := none, job_key := job_key }

/-- The fresh `PENDING` record of `job_runner.enqueue_job` (lines
362-381). -/
def mkPendingJob (job_id tenant_id loan_id run_id : String) (req : JsonVal)
    (job_key : String) (now : Nat) : JobRec :=
  { job_id := job_id, tenant_id := tenant_id, loan_id := loan_id,
    run_id := run_id, status := "PENDING", created_at_utc := tsStr now,
    started_at_utc := none, finished_at_utc := none, request := req,
    result := none, error := none, stdout := none, stderr := none,
    job_key := job_key }

/-- The `PENDING`-creation tail of `job_runner.enqueue_job` (lines
362-389): create the record, index it, persist it, start the worker
thread (which has no effect on the returned state at enqueue time), and
return `PENDING`. -/
def runner_enqueue_pending (st : SvcState) (tenant_id loan_id : String)
    (req : JsonVal) (newId : String) (now : Nat) (job_key : String) :
    SvcState × EnqResp :=
  ({ jobs := dictSet st.jobs newId
        (mkPendingJob newId tenant_id loan_id (reqRunId req) req job_key now)
     keyIndex := dictSet st.keyIndex job_key newId
     disk := diskSave st.disk now
        (mkPendingJob newId tenant_id loan_id (reqRunId req) req job_key now) },
   ⟨newId, "PENDING", "/jobs/" ++ newId⟩)

/-- Lines 332-389 of `job_runner.enqueue_job` — the code after the
idempotency check: manifest short-circuit, else fresh `PENDING` job. -/
def runner_enqueue_tail (st : SvcState) (tenant_id loan_id : String)
    (req : JsonVal) (newId : String) (now : Nat) (job_key : String) :
    SvcState × EnqResp :=
  if reqRunId req ≠ "" then
    match result_from_manifest st.disk tenant_id loan_id (reqRunId req) with
    | some rs =>
      ({ jobs := dictSet st.jobs newId
            (mkShortCircuitJob newId tenant_id loan_id (reqRunId req) req rs job_key now)
         keyIndex := dictSet st.keyIndex job_key newId
         disk := diskSave st.disk now
            (mkShortCircuitJob newId tenant_id loan_id (reqRunId req) req rs job_key now) },
       ⟨newId, "SUCCESS", "/jobs/" ++ newId⟩)
    | none => runner_enqueue_pending st tenant_id loan_id req newId now job_key
  else runner_enqueue_pending st tenant_id loan_id req newId now job_key

/-- `job_runner.enqueue_job` (`job_runner.py` lines 319-389): compute the
fingerprint; if the index maps it to a job whose status is `PENDING`,
`RUNNING` or `SUCCESS`, return that job's id and status unchanged;
otherwise run the tail above.  `newId` stands for the fresh
`uuid.uuid4()`. -/
def runner_enqueue_job (st : SvcState) (tenant_id loan_id : String)
    (req : JsonVal) (newId : String) (now : Nat) : SvcState × EnqResp :=
  match st.keyIndex.lookup (compute_job_key tenant_id loan_id req) with
  | some existing_id =>
    match st.jobs.lookup existing_id with
    | some existing =>
      if existing.status = "PENDING" ∨ existing.status = "RUNNING" ∨
          existing.status = "SUCCESS" then
        (st, ⟨existing_id, existing.status, "/jobs/" ++ existing_id⟩)
      else runner_enqueue_tail st tenant_id loan_id req newId now
        (compute_job_key tenant_id loan_id req)
    | none => runner_enqueue_tail st tenant_id loan_id req newId now
        (compute_job_key tenant_id loan_id req)
  | none => runner_enqueue_tail st tenant_id loan_id req newId now
      (compute_job_key tenant_id loan_id req)

/-- The code of `JobService.enqueue_job` after its idempotency check
(`service.py` lines 58-106), modelled exactly as written.  Lines 82-84
(`job["stdout"] = ...`, `self._store.save(job)`, `return {...SUCCESS...}`)
are indented at method-body level, not inside the manifest short-circuit,
so they run unconditionally:
* when the short-circuit fired, `job` is the freshly inserted dict (the
  stdout mutation is visible through the jobs dict, which aliases it) and
  the method persists it and returns `SUCCESS`;
* otherwise the local `job` was never assigned and line 82 raises
  `UnboundLocalError`, modelled as `Except.error`; the `PENDING`-creation
  block at lines 85-106 is unreachable (it follows the `return` of line
  84). -/
def service_enqueue_tail (st : SvcState) (tenant_id loan_id : String)
    (req : JsonVal) (newId : String) (now : Nat) (job_key : String) :
    Except String (SvcState × EnqResp) :=
  if reqRunId req ≠ "" ∧ ¬ (jsonHasKey req "question" = true) then
    match result_from_manifest st.disk tenant_id loan_id (reqRunId req) with
    | some rs =>
      .ok ({ jobs := dictSet st.jobs newId
                { mkShortCircuitJob newId tenant_id loan_id (reqRunId req) req rs job_key now
                  with stdout := some ("PHASE:DONE " ++ tsStr now ++ "\n") }
             keyIndex := dictSet st.keyIndex job_key newId
             disk := diskSave st.disk now
                { mkShortCircuitJob newId tenant_id loan_id (reqRunId req) req rs job_key now
                  with stdout := some ("PHASE:DONE " ++ tsStr now ++ "\n") } },
           ⟨newId, "SUCCESS", "/jobs/" ++ newId⟩)
    | none => .error "UnboundLocalError: local variable 'job' referenced before assignment"
  else .error "UnboundLocalError: local variable 'job' referenced before assignment"

/-- `JobService.enqueue_job` (`service.py` lines 46-106): the idempotency
check additionally requires a truthy `existing_id`, then the tail above. -/
def service_enqueue_job (st : SvcState) (tenant_id loan_id : String)
    (req : JsonVal) (newId : String) (now : Nat) :
    Except String (SvcState × EnqResp) :=
  match st.keyIndex.lookup (compute_job_key tenant_id loan_id req) with
  | some existing_id =>
    if existing_id ≠ "" then
      match st.jobs.lookup existing_id with
      | some existing =>
        if existing.status = "PENDING" ∨ existing.status = "RUNNING" ∨
            existing.status = "SUCCESS" then
          .ok (st, ⟨existing_id, existing.status, "/jobs/" ++ existing_id⟩)
        else service_enqueue_tail st tenant_id loan_id req newId now
          (compute_job_key tenant_id loan_id req)
      | none => service_enqueue_tail st tenant_id loan_id req newId now
          (compute_job_key tenant_id loan_id req)
    else service_enqueue_tail st tenant_id loan_id req newId now
      (compute_job_key tenant_id loan_id req)
  | none => service_enqueue_tail st tenant_id loan_id req newId now
      (compute_job_key tenant_id loan_id req)

/-- An empty store. -/
def emptyDisk : Disk := { jobFiles := [], claimFiles := [], manifests := [], locks := [] }

/-- A fresh orchestrator state. -/
def emptySvc : SvcState := { jobs := [], keyIndex := [], disk := emptyDisk }

theorem service_enqueue_hit (st : SvcState) (t l : String) (req : JsonVal)
    (newId : String) (now : Nat) (eid : String) (ex : JobRec)
    (hlk : st.keyIndex.lookup (compute_job_key t l req) = some eid) (hne : eid ≠ "")
    (hex : st.jobs.lookup eid = some ex)
    (hst : ex.status = "PENDING" ∨ ex.status = "RUNNING" ∨ ex.status = "SUCCESS") :
    service_enqueue_job st t l req newId now =
      .ok (st, ⟨eid, ex.status, "/jobs/" ++ eid⟩) := by
  unfold service_enqueue_job
  rw [hlk]
  show (if eid ≠ "" then _ else _) = _
  rw [if_pos hne, hex]
  show (if ex.status = "PENDING" ∨ ex.status = "RUNNING" ∨ ex.status = "SUCCESS"
      then _ else _) = _
  rw [if_pos hst]

theorem service_enqueue_tail_raises (st : SvcState) (t l : String) (req : JsonVal)
    (newId : String) (now : Nat) (job_key : String) (hnorun : reqRunId req = "") :
    service_enqueue_tail st t l req newId now job_key =
      .error "UnboundLocalError: local variable 'job' referenced before assignment" := by
  unfold service_enqueue_tail
  rw [if_neg]
  rintro ⟨h1, _⟩
  exact h1 hnorun

theorem service_enqueue_fail_retry_raises (st : SvcState) (t l : String)
    (req : JsonVal) (newId : String) (now : Nat) (eid : String) (ex : JobRec)
    (hlk : st.keyIndex.lookup (compute_job_key t l req) = some eid) (hne : eid ≠ "")
    (hex : st.jobs.lookup eid = some ex)
    (hst : ¬ (ex.status = "PENDING" ∨ ex.status = "RUNNING" ∨ ex.status = "SUCCESS"))
    (hnorun : reqRunId req = "") :
    service_enqueue_job st t l req newId now =
      .error "UnboundLocalError: local variable 'job' referenced before assignment" := by
  unfold service_enqueue_job
  rw [hlk]
  show (if eid ≠ "" then _ else _) = _
  rw [if_pos hne, hex]
  show (if ex.status = "PENDING" ∨ ex.status = "RUNNING" ∨ ex.status = "SUCCESS"
      then _ else _) = _
  rw [if_neg hst]
  exact service_enqueue_tail_raises st t l req newId now _ hnorun

theorem runner_enqueue_fail_retry_fresh (st : SvcState) (t l : String)
    (req : JsonVal) (newId : String) (now : Nat) (eid : String) (ex : JobRec)
    (hlk : st.keyIndex.lookup (compute_job_key t l req) = some eid)
    (hex : st.jobs.lookup eid = some ex)
    (hst : ¬ (ex.status = "PENDING" ∨ ex.status = "RUNNING" ∨ ex.status = "SUCCESS"))
    (hnorun : reqRunId req = "") :
    runner_enqueue_job st t l req newId now =
      runner_enqueue_pending st t l req newId now (compute_job_key t l req) := by
  unfold runner_enqueue_job
  rw [hlk]
  show (match st.jobs.lookup eid with | _ => _ : SvcState × EnqResp) = _
  rw [hex]
  show (if ex.status = "PENDING" ∨ ex.status = "RUNNING" ∨ ex.status = "SUCCESS"
      then _ else _) = _
  rw [if_neg hst]
  unfold runner_enqueue_tail
  rw [if_neg (fun h => h hnorun)]

/-- The fingerprint of the empty request for tenant `t1`, loan `L1`. -/
def c1Key : String := compute_job_key "t1" "L1" (.obj [])

/-- The `PENDING` record `job_runner.enqueue_job` creates at the C1
input. -/
def c1Pending : JobRec := mkPendingJob "j-new" "t1" "L1" "" (.obj []) c1Key 7

/-- C1 (code evaluated at the failing input): at a fresh state with no
indexed job and a request with no `run_id` — exactly the claim's
precondition — `job_runner.enqueue_job` creates the fresh `PENDING`
record, persists it, indexes `job_key -> job_id` and returns that id with
status `PENDING` and its status URL; `JobService.enqueue_job`, its
documented twin ("same semantics as job_runner"), instead raises
`UnboundLocalError`: the mis-indented lines 82-84 of `service.py` run
outside the manifest short-circuit and touch the never-assigned local
`job`, and the `PENDING`-creation block at lines 85-106 is unreachable. -/
theorem c1_service_enqueue_never_creates_pending :
    runner_enqueue_job emptySvc "t1" "L1" (.obj []) "j-new" 7 =
      ({ jobs := [("j-new", c1Pending)]
         keyIndex := [(c1Key, "j-new")]
         disk := { jobFiles := [⟨"t1", "L1", "j-new", 7, .record c1Pending⟩]
                   claimFiles := []
                   manifests := []
                   locks := [] } },
       ⟨"j-new", "PENDING", "/jobs/j-new"⟩) ∧
    service_enqueue_job emptySvc "t1" "L1" (.obj []) "j-new" 7 =
      .error "UnboundLocalError: local variable 'job' referenced before assignment" :=
  ⟨rfl, rfl⟩

/-- A terminal `FAIL` record indexed under the fingerprint of the empty
request. -/
def c3FailRec : JobRec :=
  { job_id := "j0", tenant_id := "t1", loan_id := "L1", run_id := "",
    status := "FAIL", created_at_utc := "2025-01-01T00:00:00Z",
    started_at_utc := none, finished_at_utc := some "2025-01-01T00:10:00Z",
    request := .obj [], result := none, error := some "Exit code 1",
    stdout := none, stderr := none,
    job_key := compute_job_key "t1" "L1" (.obj []) }

/-- State whose key index maps the empty request's fingerprint to the
`FAIL` job `j0`. -/
def c3State : SvcState :=
  { jobs := [("j0", c3FailRec)],
    keyIndex := [(compute_job_key "t1" "L1" (.obj []), "j0")],
    disk := emptyDisk }

/-- The same state with `j0` in status `SUCCESS` instead. -/
def c3SuccState : SvcState :=
  { c3State with jobs := [("j0", { c3FailRec with status := "SUCCESS" })] }

/-- C3 (code evaluated at the failing input): with the index mapping the
request's fingerprint to a `SUCCESS` job, both enqueue paths return that
job's id and status and create nothing new (the idempotent hit works);
with the indexed job in status `FAIL`, `job_runner.enqueue_job` falls
through and returns a fresh `job_id` distinct from the old one, but
`JobService.enqueue_job` raises `UnboundLocalError` instead of creating
anything — the retry-after-failure half of the claim fails on
`service.py`. -/
theorem c3_fail_retry_divergence :
    (service_enqueue_job c3SuccState "t1" "L1" (.obj []) "j-new" 7 =
      .ok (c3SuccState, ⟨"j0", "SUCCESS", "/jobs/j0"⟩)) ∧
    ((runner_enqueue_job c3State "t1" "L1" (.obj []) "j-new" 7).2 =
      ⟨"j-new", "PENDING", "/jobs/j-new"⟩) ∧
    ("j-new" ≠ "j0") ∧
    (service_enqueue_job c3State "t1" "L1" (.obj []) "j-new" 7 =
      .error "UnboundLocalError: local variable 'job' referenced before assignment") := by
  have hlkS : c3SuccState.keyIndex.lookup (compute_job_key "t1" "L1" (.obj [])) =
      some "j0" := by
    show List.lookup _ [(compute_job_key "t1" "L1" (.obj []), "j0")] = _
    simp [List.lookup]
  have hlkF : c3State.keyIndex.lookup (compute_job_key "t1" "L1" (.obj [])) =
      some "j0" := by
    show List.lookup _ [(compute_job_key "t1" "L1" (.obj []), "j0")] = _
    simp [List.lookup]
  have hfailst : ¬ (c3FailRec.status = "PENDING" ∨ c3FailRec.status = "RUNNING" ∨
      c3FailRec.status = "SUCCESS") := by decide
  refine ⟨?_, ?_, by decide, ?_⟩
  · have h := service_enqueue_hit c3SuccState "t1" "L1" (.obj []) "j-new" 7 "j0"
      { c3FailRec with status := "SUCCESS" } hlkS (by decide) rfl (by right; right; rfl)
    exact h
  · rw [runner_enqueue_fail_retry_fresh c3State "t1" "L1" (.obj []) "j-new" 7 "j0"
      c3FailRec hlkF rfl hfailst rfl]
    rfl
  · exact service_enqueue_fail_retry_raises c3State "t1" "L1" (.obj []) "j-new" 7 "j0"
      c3FailRec hlkF (by decide) rfl hfailst rfl

/-! ## Worker poll cycle (`job_worker.run_one_cycle`) -/

/-- Python truthiness of a JSON value. -/
def jsonTruthy : JsonVal → Bool
  | .null => false
  | .bool b => b
  | .num n => !(n == 0)
  | .str s => !(s == "")
  | .arr xs => !xs.isEmpty
  | .obj fs => !fs.isEmpty

/-- `JOB_TIMEOUT_DEFAULT` from `adapters_subprocess.py` / `job_runner.py`. -/
def JOB_TIMEOUT_DEFAULT : Nat := 3600

/-- `request.get("timeout", JOB_TIMEOUT_DEFAULT)`; request timeouts are
numeric when present. -/
def reqTimeout (request : JsonVal) : Int :=
  match jsonGet request "timeout" with
  | some (.num n) => n
  | _ => JOB_TIMEOUT_DEFAULT

/-- Try to match `run_id\s*=\s*(\S+)` starting at the head of the
character list. -/
def matchRunIdAt (cs : List Char) : Option String :=
  match cs with
  | 'r' :: 'u' :: 'n' :: '_' :: 'i' :: 'd' :: rest =>
    match rest.dropWhile (fun c => c.isWhitespace) with
    | '=' :: rest2 =>
      let tok := (rest2.dropWhile (fun c => c.isWhitespace)).takeWhile
        (fun c => !c.isWhitespace)
      if tok.isEmpty then none else some (String.mk tok)
    | _ => none
  | _ => none

/-- `re.search` of that pattern over one line: try every start position. -/
def scanLineForRunId : List Char → Option String
  | [] => none
  | c :: rest =>
    match matchRunIdAt (c :: rest) with
    | some s => some s
    | none => scanLineForRunId rest

/-- `_parse_run_id_from_stdout` (`adapters_disk.py` lines 32-37): the first
line containing `run_id = <token>` yields the token.  (`str.splitlines` is
modelled as splitting on `\n`.) -/
def parseLinesForRunId : List String → Option String
  | [] => none
  | line :: rest =>
    match scanLineForRunId line.data with
    | some s => some s
    | none => parseLinesForRunId rest

/-- `_parse_run_id_from_stdout`, over the split lines. -/
def parse_run_id_from_stdout (stdout : String) : Option String :=
  parseLinesForRunId (stdout.splitOn "\n")

/-- `DiskJobStore.list_pending_jobs` (`adapters_disk.py` lines 112-157):
`(tenant, loan, job_id)` of every readable job file whose object's status
is `PENDING` and whose `job_id` is truthy, optionally scoped. -/
def list_pending_jobs (d : Disk) (tenantF loanF : Option String) :
    List (String × String × String) :=
  d.jobFiles.filterMap (fun f =>
    if (tenantF.all (fun t => f.tenant == t)) && (loanF.all (fun l => f.loan == l)) then
      match f.content with
      | .record r =>
        if r.status = "PENDING" ∧ r.job_id ≠ "" then some (f.tenant, f.loan, r.job_id)
        else none
      | _ => none
    else none)

/-- `DiskJobStore.load_job` (`adapters_disk.py` lines 98-110): the parsed
record, provided it is an object whose `job_id` matches the file stem. -/
def load_job (d : Disk) (t l jid : String) : Option JobRec :=
  match jobFileAt d t l jid with
  | none => none
  | some f =>
    match f.content with
    | .record r => if r.job_id = jid then some r else none
    | _ => none

/-- The outcome of one `runner.run(...)` invocation, supplied by the
environment: normal return with exit code and captured (runner-truncated)
output, `subprocess.TimeoutExpired`, or another exception. -/
inductive RunOutcome where
  | ok (rc : Int) (stdout stderr : String)
  | timeout
  | exc (msg : String)
  deriving Repr

/-- The outcome of one `loan_lock.acquire(...)` call: success, or the
`RuntimeError` raised on an unexpected I/O failure.  (Contention blocks
with sleep-retry and does not return; it is outside this single-cycle
model.) -/
inductive AcquireOutcome where
  | ok
  | err (msg : String)
  deriving Repr

/-- The worker's collaborators, as functions of the job being processed. -/
structure WorkerEnv where
  acquire : String → String → String → AcquireOutcome
  runOut : String → String → String → RunOutcome

/-- Which control path inside `run_one_cycle` a claimed candidate took
(a specification-side trace; it does not influence the computed state). -/
inductive CyclePath where
  | claimFailed
  | staleRecheck
  | lockFail (msg : String)
  | timeout
  | exc (msg : String)
  | normal
  deriving Repr

/-- Result of one poll cycle: the boolean `run_one_cycle` returns, the
resulting store state, and the trace of candidates visited. -/
structure CycleOutcome where
  processed : Bool
  disk : Disk
  events : List ((String × String × String) × CyclePath)
  deriving Repr

/-- The `for tid, lid, jid in pending:` loop of `run_one_cycle`
(`job_worker.py` lines 67-142), one iteration per candidate:
try to claim (failure: next candidate); re-load and re-check `PENDING`
(failure: release claim, next candidate); acquire the loan lock (failure:
persist `FAIL`, release claim, return `True`); persist `RUNNING`; run the
pipeline; on `TimeoutExpired` or any other exception persist `FAIL` and
return `True` — the `finally` releases the loan lock but **no claim
release happens on these two paths**; on normal return release the lock,
resolve the run id, classify against the manifest, persist the terminal
record, release the claim, return `True`. -/
def runCycleLoop (env : WorkerEnv) (now : Nat) :
    List (String × String × String) → Disk → CycleOutcome
  | [], d => ⟨false, d, []⟩
  | (tid, lid, jid) :: rest, d =>
    match try_claim d now tid lid jid with
    | (false, d0) =>
      let o := runCycleLoop env now rest d0
      ⟨o.processed, o.disk, ((tid, lid, jid), .claimFailed) :: o.events⟩
    | (true, d1) =>
      match load_job d1 tid lid jid with
      | none =>
        let o := runCycleLoop env now rest (release_claim d1 tid lid jid)
        ⟨o.processed, o.disk, ((tid, lid, jid), .staleRecheck) :: o.events⟩
      | some job =>
        if job.status ≠ "PENDING" then
          let o := runCycleLoop env now rest (release_claim d1 tid lid jid)
          ⟨o.processed, o.disk, ((tid, lid, jid), .staleRecheck) :: o.events⟩
        else
          let request := if jsonTruthy job.request then job.request else JsonVal.obj []
          match env.acquire tid lid jid with
          | .err e =>
            let jobF := { job with
              status := "FAIL"
              finished_at_utc := some (tsStr now)
              error := some (pyTruncate e ERROR_TRUNCATE) }
            ⟨true, release_claim (diskSave d1 now jobF) tid lid jid,
              [((tid, lid, jid), .lockFail e)]⟩
          | .ok =>
            let d2 := lockAcquire d1 tid lid
            let jobR := { job with
              status := "RUNNING"
              started_at_utc := some (tsStr now) }
            let d3 := diskSave d2 now jobR
            match env.runOut tid lid jid with
            | .timeout =>
              let jobF := { jobR with
                status := "FAIL"
                finished_at_utc := some (tsStr now)
                error := some (pyTruncate
                  ("Job timed out after " ++ toString (reqTimeout request) ++ "s")
                  ERROR_TRUNCATE) }
              ⟨true, lockRelease (diskSave d3 now jobF) tid lid,
                [((tid, lid, jid), .timeout)]⟩
            | .exc e =>
              let jobF := { jobR with
                status := "FAIL"
                finished_at_utc := some (tsStr now)
                error := some (pyTruncate e ERROR_TRUNCATE) }
              ⟨true, lockRelease (diskSave d3 now jobF) tid lid,
                [((tid, lid, jid), .exc e)]⟩
            | .ok rc out errS =>
              let d4 := lockRelease d3 tid lid
              let resolved : Option String :=
                match jsonGet request "run_id" with
                | some (.str s) =>
                  if s ≠ "" then some s else parse_run_id_from_stdout out
                | _ => parse_run_id_from_stdout out
              let rsummary : StrDict :=
                match resolved with
                | none => []
                | some rid =>
                  match load_manifest_if_present d4 tid lid rid with
                  | none => []
                  | some m =>
                    if m = [] then []
                    else [("manifest_path", some (manifestPathStr tid lid rid)),
                          ("status", dictGet m "status"),
                          ("rp_sha256", dictGet m "retrieval_pack_sha256"),
                          ("outputs_base", some (outputsBaseStr tid lid rid))]
              let jobBase := { jobR with
                finished_at_utc := some (tsStr now)
                stdout := some out
                stderr := some errS
                run_id := resolved.getD "" }
              let jobDone :=
                if rc = 0 ∧ dictGet rsummary "status" = some "SUCCESS" then
                  { jobBase with status := "SUCCESS", result := some rsummary }
                else
                  { jobBase with
                    status := "FAIL"
                    error := some (pyTruncate
                      (if errS ≠ "" then errS
                       else if out ≠ "" then out
                       else "Exit code " ++ toString rc) ERROR_TRUNCATE)
                    result := if rsummary ≠ [] then some rsummary else jobBase.result }
              ⟨true, release_claim (diskSave d4 now jobDone) tid lid jid,
                [((tid, lid, jid), .normal)]⟩

/-- `job_worker.run_one_cycle` (`job_worker.py` lines 52-142): clear stale
claims, list `PENDING` candidates (optionally scoped), then the loop
above.  `CLAIM_STALE_SEC = 300` is the default `claim_max_age_sec`. -/
def run_one_cycle (env : WorkerEnv) (d : Disk) (now maxAge : Nat)
    (tenantF loanF : Option String) : CycleOutcome :=
  runCycleLoop env now
    (list_pending_jobs (clear_stale_claims d now maxAge) tenantF loanF)
    (clear_stale_claims d now maxAge)

/-- A single `PENDING` job for the worker to claim. -/
def c6Rec : JobRec :=
  { job_id := "j1", tenant_id := "t1", loan_id := "L1", run_id := "",
    status := "PENDING", created_at_utc := "2025-01-01T00:00:00Z",
    started_at_utc := none, finished_at_utc := none, request := .obj [],
    result := none, error := none, stdout := none, stderr := none,
    job_key := "k1" }

/-- The worker's store: that job, no claims, no locks. -/
def c6Disk : Disk :=
  { jobFiles := [⟨"t1", "L1", "j1", 10, .record c6Rec⟩],
    claimFiles := [], manifests := [], locks := [] }

/-- Environment in which the pipeline run raises `TimeoutExpired`. -/
def c6EnvTimeout : WorkerEnv :=
  { acquire := fun _ _ _ => .ok, runOut := fun _ _ _ => .timeout }

/-- Environment in which the pipeline run returns normally. -/
def c6EnvOk : WorkerEnv :=
  { acquire := fun _ _ _ => .ok, runOut := fun _ _ _ => .ok 0 "" "" }

unseal String.splitOnAux in
/-- C6 (code evaluated at the failing input): a cycle that claims the
`PENDING` job `j1` and then hits a runner timeout returns `True` with the
job persisted `FAIL` and the loan lock released — but the claim file for
`j1` is still on disk: the timeout and exception paths of
`run_one_cycle` return without `store.release_claim`, so the claim marker
is not released for every execution outcome.  The same cycle under a
normally returning runner does release the claim, showing the asymmetry. -/
theorem c6_claim_leaked_on_timeout :
    (run_one_cycle c6EnvTimeout c6Disk 100 300 none none).processed = true ∧
    (run_one_cycle c6EnvTimeout c6Disk 100 300 none none).disk.claimFiles =
      [⟨"t1", "L1", "j1", 100⟩] ∧
    diskStatusAt (run_one_cycle c6EnvTimeout c6Disk 100 300 none none).disk
      "t1" "L1" "j1" = some "FAIL" ∧
    (run_one_cycle c6EnvTimeout c6Disk 100 300 none none).disk.locks = [] ∧
    (run_one_cycle c6EnvOk c6Disk 100 300 none none).disk.claimFiles = [] :=
  ⟨rfl, rfl, rfl, rfl, rfl⟩

/-! ## C4: forward-only status motion across the modelled operations -/

/-- `try_claim` touches only claim markers: whichever branch is taken,
the job files of the resulting store are those of the input store. -/
theorem try_claim_snd_jobFiles (d : Disk) (now : Nat) (t l j : String)
    (b : Bool) (dX : Disk) (h : try_claim d now t l j = (b, dX)) :
    dX.jobFiles = d.jobFiles := by
  unfold try_claim at h
  split at h <;> (injection h with h1 h2; rw [← h2])

/-- `clear_stale_claims` touches only claim markers. -/
theorem clear_stale_claims_jobFiles (d : Disk) (now maxAge : Nat) :
    (clear_stale_claims d now maxAge).jobFiles = d.jobFiles := by
  rw [clear_stale_claims, clearStaleClaimsLoop_spec d now maxAge d.claimFiles d rfl]

/-- A stem mismatch alone already falsifies `jobFileKeyEq`. -/
theorem jobFileKeyEq_false_of_stem_ne (f : JobFile) (t l s : String)
    (h : f.stem ≠ s) : jobFileKeyEq f t l s = false := by
  rw [Bool.eq_false_iff]
  intro hk
  exact h ((jobFileKeyEq_iff f t l s).mp hk).2.2

/-- `save` upserts at the record's own `(tenant_id, loan_id, job_id)` key:
every job file at a different key survives unchanged. -/
theorem diskSave_keeps_other (d : Disk) (now : Nat) (r : JobRec) (F : JobFile)
    (t l j : String) (ht : r.tenant_id = t) (hl : r.loan_id = l)
    (hj : r.job_id = j) (hF : F ∈ d.jobFiles)
    (hne : jobFileKeyEq F t l j = false) :
    F ∈ (diskSave d now r).jobFiles := by
  unfold diskSave
  split
  · exact hF
  · refine List.mem_append_left _ (List.mem_filter.mpr ⟨hF, ?_⟩)
    rw [ht, hl, hj, hne]
    rfl

/-- A string field of a record chosen by an `if` equals `x` when both
branches' fields do. -/
theorem iteJobRecField (c : Prop) [h : Decidable c] (a b : JobRec)
    (f : JobRec → String) (x : String) (ha : f a = x) (hb : f b = x) :
    f (if c then a else b) = x := by
  by_cases hc : c
  · rw [if_pos hc]
    exact ha
  · rw [if_neg hc]
    exact hb

/-- Inverting a successful `load_job`: a job file at exactly that path
holds the returned record, whose `job_id` matches the stem. -/
theorem load_job_inv (d : Disk) (t l jid : String) (job : JobRec)
    (h : load_job d t l jid = some job) :
    ∃ g ∈ d.jobFiles, jobFileKeyEq g t l jid = true ∧
      g.content = .record job ∧ job.job_id = jid := by
  unfold load_job at h
  split at h
  · exact Option.noConfusion h
  · rename_i g hfa
    have hg : g ∈ d.jobFiles := List.mem_of_find?_eq_some hfa
    have hgk : jobFileKeyEq g t l jid = true :=
      @List.find?_some JobFile (fun f => jobFileKeyEq f t l jid) g d.jobFiles hfa
    split at h
    · rename_i r hc
      split at h
      · rename_i hid
        have hrj : r = job := Option.some.inj h
        refine ⟨g, hg, hgk, ?_, ?_⟩
        · rw [hc, hrj]
        · rw [← hrj]
          exact hid
      · exact Option.noConfusion h
    · exact Option.noConfusion h

/-- The worker loop never touches a job file whose record is terminal:
under path-coherent records (each record's ids equal its file's path, the
invariant `save` maintains) and distinct file paths (as on a real
filesystem), every save the loop performs targets the key of the claimed
candidate, which the `PENDING` re-check just vetted, so a `SUCCESS` or
`FAIL` file is never overwritten. -/
theorem runCycleLoop_keeps_terminal (env : WorkerEnv) (now : Nat) :
    ∀ (pending : List (String × String × String)) (d : Disk) (F : JobFile)
      (rF : JobRec),
      (d.jobFiles.map (fun f => (f.tenant, f.loan, f.stem))).Nodup →
      (∀ g ∈ d.jobFiles, ∀ rg : JobRec, g.content = .record rg →
        rg.tenant_id = g.tenant ∧ rg.loan_id = g.loan ∧ rg.job_id = g.stem) →
      F ∈ d.jobFiles → F.content = .record rF →
      rF.status = "SUCCESS" ∨ rF.status = "FAIL" →
      F ∈ (runCycleLoop env now pending d).disk.jobFiles := by
  intro pending
  induction pending with
  | nil =>
    intro d F rF _ _ hF _ _
    exact hF
  | cons head rest ih =>
    intro d F rF hnd hcoh hF hFc hFst
    obtain ⟨tid, lid, jid⟩ := head
    rw [runCycleLoop]
    split
    · rename_i d0 heq
      have hjf := try_claim_snd_jobFiles d now tid lid jid false d0 heq
      exact ih d0 F rF (by rw [hjf]; exact hnd) (by rw [hjf]; exact hcoh)
        (by rw [hjf]; exact hF) hFc hFst
    · rename_i d1 heq
      have hjf := try_claim_snd_jobFiles d now tid lid jid true d1 heq
      have hrel : ∀ x y z : String,
          (release_claim d1 x y z).jobFiles = d.jobFiles := by
        intro x y z
        show d1.jobFiles = d.jobFiles
        exact hjf
      split
      · exact ih (release_claim d1 tid lid jid) F rF
          (by rw [hrel]; exact hnd) (by rw [hrel]; exact hcoh)
          (by rw [hrel]; exact hF) hFc hFst
      · rename_i job hlj
        split
        · exact ih (release_claim d1 tid lid jid) F rF
            (by rw [hrel]; exact hnd) (by rw [hrel]; exact hcoh)
            (by rw [hrel]; exact hF) hFc hFst
        · rename_i hnp
          have hp : job.status = "PENDING" := not_not.mp hnp
          obtain ⟨g, hgmem, hgk, hgc, hgid⟩ := load_job_inv d1 tid lid jid job hlj
          have hgmem' : g ∈ d.jobFiles := by
            rw [← hjf]
            exact hgmem
          have hids := hcoh g hgmem' job hgc
          have hgk' := (jobFileKeyEq_iff g tid lid jid).mp hgk
          have hjt : job.tenant_id = tid := by rw [hids.1, hgk'.1]
          have hjl : job.loan_id = lid := by rw [hids.2.1, hgk'.2.1]
          have hF1 : F ∈ d1.jobFiles := by
            rw [hjf]
            exact hF
          have hneJob : jobFileKeyEq F tid lid jid = false := by
            rw [Bool.eq_false_iff]
            intro hkey
            have hkF := (jobFileKeyEq_iff F tid lid jid).mp hkey
            have hFg : F = g := by
              apply List.inj_on_of_nodup_map hnd hF hgmem'
              show (F.tenant, F.loan, F.stem) = (g.tenant, g.loan, g.stem)
              rw [hkF.1, hkF.2.1, hkF.2.2, hgk'.1, hgk'.2.1, hgk'.2.2]
            rw [hFg, hgc] at hFc
            injection hFc with hrec
            rcases hFst with hS | hFl
            · rw [← hrec, hp] at hS
              exact absurd hS (by decide)
            · rw [← hrec, hp] at hFl
              exact absurd hFl (by decide)
          rcases hacq : env.acquire tid lid jid with _ | e
          · rcases hrun : env.runOut tid lid jid with ⟨rc, out, errS⟩ | _ | e
            · exact diskSave_keeps_other _ now _ F tid lid jid
                (iteJobRecField _ _ _ JobRec.tenant_id tid hjt hjt)
                (iteJobRecField _ _ _ JobRec.loan_id lid hjl hjl)
                (iteJobRecField _ _ _ JobRec.job_id jid hgid hgid)
                (diskSave_keeps_other _ now _ F tid lid jid hjt hjl hgid hF1
                  hneJob)
                hneJob
            · exact diskSave_keeps_other _ now _ F tid lid jid hjt hjl hgid
                (diskSave_keeps_other _ now _ F tid lid jid hjt hjl hgid hF1
                  hneJob)
                hneJob
            · exact diskSave_keeps_other _ now _ F tid lid jid hjt hjl hgid
                (diskSave_keeps_other _ now _ F tid lid jid hjt hjl hgid hF1
                  hneJob)
                hneJob
          · exact diskSave_keeps_other _ now _ F tid lid jid hjt hjl hgid hF1
              hneJob

/-- `run_one_cycle` preserves every terminal job file: the stale-claim
sweep touches only claim markers, and the candidate loop only writes at
`PENDING`-vetted keys. -/
theorem run_one_cycle_keeps_terminal (env : WorkerEnv) (d : Disk)
    (now maxAge : Nat) (tF lF : Option String) (F : JobFile) (rF : JobRec)
    (hnd : (d.jobFiles.map (fun f => (f.tenant, f.loan, f.stem))).Nodup)
    (hcoh : ∀ g ∈ d.jobFiles, ∀ rg : JobRec, g.content = .record rg →
      rg.tenant_id = g.tenant ∧ rg.loan_id = g.loan ∧ rg.job_id = g.stem)
    (hF : F ∈ d.jobFiles) (hFc : F.content = .record rF)
    (hFst : rF.status = "SUCCESS" ∨ rF.status = "FAIL") :
    F ∈ (run_one_cycle env d now maxAge tF lF).disk.jobFiles := by
  have hjf := clear_stale_claims_jobFiles d now maxAge
  exact runCycleLoop_keeps_terminal env now
    (list_pending_jobs (clear_stale_claims d now maxAge) tF lF)
    (clear_stale_claims d now maxAge) F rF
    (by rw [hjf]; exact hnd) (by rw [hjf]; exact hcoh)
    (by rw [hjf]; exact hF) hFc hFst

/-- Python dict assignment at one key leaves every other binding in
place. -/
theorem dictSet_mem_of_ne {β : Type} (l : List (String × β)) (k : String)
    (v : β) (j : String) (r : β) (hmem : (j, r) ∈ l) (hne : j ≠ k) :
    (j, r) ∈ dictSet l k v := by
  unfold dictSet
  split
  · refine List.mem_map.mpr ⟨(j, r), hmem, ?_⟩
    show (if j = k then (k, v) else (j, r)) = (j, r)
    rw [if_neg hne]
  · exact List.mem_append_left _ hmem

/-- The fresh-`PENDING` tail writes only at the fresh uuid: every
existing in-memory binding and every job file with a different stem
survives. -/
theorem runner_enqueue_pending_keeps (st : SvcState) (t l : String)
    (req : JsonVal) (newId : String) (now : Nat) (job_key : String)
    (j : String) (r : JobRec) (f : JobFile)
    (hj : (j, r) ∈ st.jobs) (hf : f ∈ st.disk.jobFiles)
    (hne : j ≠ newId) (hfs : f.stem ≠ newId) :
    (j, r) ∈ (runner_enqueue_pending st t l req newId now job_key).1.jobs ∧
      f ∈ (runner_enqueue_pending st t l req newId now job_key).1.disk.jobFiles := by
  constructor
  · exact dictSet_mem_of_ne st.jobs newId _ j r hj hne
  · exact diskSave_keeps_other st.disk now _ f t l newId rfl rfl rfl hf
      (jobFileKeyEq_false_of_stem_ne f t l newId hfs)

/-- Same for the whole post-idempotency tail of `job_runner.enqueue_job`
(manifest short-circuit or fresh `PENDING`). -/
theorem runner_enqueue_tail_keeps (st : SvcState) (t l : String)
    (req : JsonVal) (newId : String) (now : Nat) (job_key : String)
    (j : String) (r : JobRec) (f : JobFile)
    (hj : (j, r) ∈ st.jobs) (hf : f ∈ st.disk.jobFiles)
    (hne : j ≠ newId) (hfs : f.stem ≠ newId) :
    (j, r) ∈ (runner_enqueue_tail st t l req newId now job_key).1.jobs ∧
      f ∈ (runner_enqueue_tail st t l req newId now job_key).1.disk.jobFiles := by
  by_cases hrid : reqRunId req ≠ ""
  · rw [runner_enqueue_tail, if_pos hrid]
    rcases hman : result_from_manifest st.disk t l (reqRunId req) with _ | rs
    · exact runner_enqueue_pending_keeps st t l req newId now job_key j r f
        hj hf hne hfs
    · exact ⟨dictSet_mem_of_ne st.jobs newId _ j r hj hne,
        diskSave_keeps_other st.disk now _ f t l newId rfl rfl rfl hf
          (jobFileKeyEq_false_of_stem_ne f t l newId hfs)⟩
  · rw [runner_enqueue_tail, if_neg hrid]
    exact runner_enqueue_pending_keeps st t l req newId now job_key j r f
      hj hf hne hfs

/-- `job_runner.enqueue_job` never modifies an existing job record or an
existing job file at another stem: the idempotent hit returns the state
unchanged, and every creation path writes only at the fresh uuid. -/
theorem runner_enqueue_keeps (st : SvcState) (t l : String) (req : JsonVal)
    (newId : String) (now : Nat) (j : String) (r : JobRec) (f : JobFile)
    (hj : (j, r) ∈ st.jobs) (hf : f ∈ st.disk.jobFiles)
    (hne : j ≠ newId) (hfs : f.stem ≠ newId) :
    (j, r) ∈ (runner_enqueue_job st t l req newId now).1.jobs ∧
      f ∈ (runner_enqueue_job st t l req newId now).1.disk.jobFiles := by
  unfold runner_enqueue_job
  split
  · split
    · split
      · exact ⟨hj, hf⟩
      · exact runner_enqueue_tail_keeps st t l req newId now _ j r f
          hj hf hne hfs
    · exact runner_enqueue_tail_keeps st t l req newId now _ j r f
        hj hf hne hfs
  · exact runner_enqueue_tail_keeps st t l req newId now _ j r f
      hj hf hne hfs

/-- When `JobService.enqueue_job`'s tail returns without raising, it wrote
only at the fresh uuid. -/
theorem service_enqueue_tail_ok_keeps (st : SvcState) (t l : String)
    (req : JsonVal) (newId : String) (now : Nat) (job_key : String)
    (st' : SvcState) (resp : EnqResp) (j : String) (r : JobRec) (f : JobFile)
    (hok : service_enqueue_tail st t l req newId now job_key =
      Except.ok (st', resp))
    (hj : (j, r) ∈ st.jobs) (hf : f ∈ st.disk.jobFiles)
    (hne : j ≠ newId) (hfs : f.stem ≠ newId) :
    (j, r) ∈ st'.jobs ∧ f ∈ st'.disk.jobFiles := by
  unfold service_enqueue_tail at hok
  split at hok
  · split at hok
    · injection hok with hpair
      injection hpair with h1 h2
      rw [← h1]
      exact ⟨dictSet_mem_of_ne st.jobs newId _ j r hj hne,
        diskSave_keeps_other st.disk now _ f t l newId rfl rfl rfl hf
          (jobFileKeyEq_false_of_stem_ne f t l newId hfs)⟩
    · exact Except.noConfusion hok
  · exact Except.noConfusion hok

/-- Every non-raising `JobService.enqueue_job` call leaves existing
records and files at other stems untouched. -/
theorem service_enqueue_ok_keeps (st : SvcState) (t l : String)
    (req : JsonVal) (newId : String) (now : Nat) (st' : SvcState)
    (resp : EnqResp) (j : String) (r : JobRec) (f : JobFile)
    (hok : service_enqueue_job st t l req newId now = Except.ok (st', resp))
    (hj : (j, r) ∈ st.jobs) (hf : f ∈ st.disk.jobFiles)
    (hne : j ≠ newId) (hfs : f.stem ≠ newId) :
    (j, r) ∈ st'.jobs ∧ f ∈ st'.disk.jobFiles := by
  unfold service_enqueue_job at hok
  split at hok
  · split at hok
    · split at hok
      · split at hok
        · injection hok with hpair
          injection hpair with h1 h2
          rw [← h1]
          exact ⟨hj, hf⟩
        · exact service_enqueue_tail_ok_keeps st t l req newId now _ st' resp
            j r f hok hj hf hne hfs
      · exact service_enqueue_tail_ok_keeps st t l req newId now _ st' resp
          j r f hok hj hf hne hfs
    · exact service_enqueue_tail_ok_keeps st t l req newId now _ st' resp
        j r f hok hj hf hne hfs
  · exact service_enqueue_tail_ok_keeps st t l req newId now _ st' resp
      j r f hok hj hf hne hfs

/-- A `SUCCESS` record for the forward-only witness. -/
def c4wRec : JobRec :=
  { job_id := "j0", tenant_id := "t1", loan_id := "L1", run_id := "",
    status := "SUCCESS", created_at_utc := "2025-01-01T00:00:00Z",
    started_at_utc := none, finished_at_utc := some "2025-01-01T00:10:00Z",
    request := .obj [], result := none, error := none, stdout := none,
    stderr := none, job_key := compute_job_key "t1" "L1" (.obj []) }

/-- Its on-disk file. -/
def c4wFile : JobFile := ⟨"t1", "L1", "j0", 10, .record c4wRec⟩

/-- Orchestrator state holding that job, indexed under the empty request's
fingerprint. -/
def c4wSvc : SvcState :=
  { jobs := [("j0", c4wRec)],
    keyIndex := [(compute_job_key "t1" "L1" (.obj []), "j0")],
    disk := { jobFiles := [c4wFile], claimFiles := [], manifests := [],
              locks := [] } }

/-- A `PENDING` record alongside the terminal one for the worker leg. -/
def c4wPendRec : JobRec :=
  { job_id := "j2", tenant_id := "t1", loan_id := "L1", run_id := "",
    status := "PENDING", created_at_utc := "2025-01-01T00:00:00Z",
    started_at_utc := none, finished_at_utc := none, request := .obj [],
    result := none, error := none, stdout := none, stderr := none,
    job_key := "k2" }

/-- Worker store for the witness: the terminal file plus a `PENDING`
candidate. -/
def c4wDisk : Disk :=
  { jobFiles := [c4wFile, ⟨"t1", "L1", "j2", 11, .record c4wPendRec⟩],
    claimFiles := [], manifests := [], locks := [] }

/-- Environment whose runner returns normally. -/
def c4wEnv : WorkerEnv :=
  { acquire := fun _ _ _ => .ok, runOut := fun _ _ _ => .ok 0 "" "" }

/-- C4 (amended): statuses only move forward — `PENDING → RUNNING →
{SUCCESS, FAIL}` — under the modelled operations.  Enqueue (both
`job_runner.enqueue_job` and every non-raising `JobService.enqueue_job`
call) leaves every existing in-memory record and every job file outside
the fresh uuid's key untouched; a worker cycle, over a store whose file
paths are distinct and whose records carry the ids of their own paths
(the invariant `save` maintains), never rewrites a `SUCCESS` or `FAIL`
job file, since each of its writes targets the key its `PENDING` re-check
just vetted; and `load_all` crash recovery with retention obeys the
forward direction up to the one exception: the orphan-reconciliation step
of `_startup` rewrites a just-recovered terminal record back to
`RUNNING`, but only for jobs whose raw on-disk status at startup entry
was still `RUNNING` with a live supervision unit — so after the whole
`_startup`, every `RUNNING` or `PENDING` record had exactly that status
in some on-disk record file before startup, and a record that was
terminal on disk before startup began is never brought back by it. -/
theorem c4_forward_only_except_orphan_restore :
    (∀ (st : SvcState) (t l : String) (req : JsonVal) (newId : String)
        (now : Nat) (j : String) (r : JobRec) (f : JobFile),
      (j, r) ∈ st.jobs → f ∈ st.disk.jobFiles → j ≠ newId → f.stem ≠ newId →
      (j, r) ∈ (runner_enqueue_job st t l req newId now).1.jobs ∧
        f ∈ (runner_enqueue_job st t l req newId now).1.disk.jobFiles) ∧
    (∀ (st : SvcState) (t l : String) (req : JsonVal) (newId : String)
        (now : Nat) (st' : SvcState) (resp : EnqResp) (j : String)
        (r : JobRec) (f : JobFile),
      service_enqueue_job st t l req newId now = Except.ok (st', resp) →
      (j, r) ∈ st.jobs → f ∈ st.disk.jobFiles → j ≠ newId → f.stem ≠ newId →
      (j, r) ∈ st'.jobs ∧ f ∈ st'.disk.jobFiles) ∧
    (∀ (env : WorkerEnv) (d : Disk) (now maxAge : Nat)
        (tF lF : Option String) (F : JobFile) (rF : JobRec),
      (d.jobFiles.map (fun f => (f.tenant, f.loan, f.stem))).Nodup →
      (∀ g ∈ d.jobFiles, ∀ rg : JobRec, g.content = .record rg →
        rg.tenant_id = g.tenant ∧ rg.loan_id = g.loan ∧ rg.job_id = g.stem) →
      F ∈ d.jobFiles → F.content = .record rF →
      rF.status = "SUCCESS" ∨ rF.status = "FAIL" →
      F ∈ (run_one_cycle env d now maxAge tF lF).disk.jobFiles) ∧
    (∀ (d : Disk) (alive : String → Bool) (now : Nat) (j : String)
        (r' : JobRec),
      (j, r') ∈ (startup d alive now).1 →
      r'.status = "RUNNING" ∨ r'.status = "PENDING" →
      ∃ f ∈ d.jobFiles, ∃ r₀ : JobRec, f.content = .record r₀ ∧
        r₀.job_id = j ∧ r₀.status = r'.status) :=
  ⟨fun st t l req newId now j r f hj hf hne hfs =>
      runner_enqueue_keeps st t l req newId now j r f hj hf hne hfs,
   fun st t l req newId now st' resp j r f hok hj hf hne hfs =>
      service_enqueue_ok_keeps st t l req newId now st' resp j r f hok
        hj hf hne hfs,
   fun env d now maxAge tF lF F rF hnd hcoh hF hFc hFst =>
      run_one_cycle_keeps_terminal env d now maxAge tF lF F rF hnd hcoh
        hF hFc hFst,
   fun d alive now j r' hmem hst =>
      startup_nonterminal_needs_disk_source d alive now j r' hmem hst⟩

unseal List.merge List.mergeSort in
/-- Witness for `c4_forward_only_except_orphan_restore` at concrete
inputs: an enqueue over a state holding the `SUCCESS` job `j0` (the
runner path and the idempotent-hit service path), one worker cycle over a
store holding the terminal file and a `PENDING` candidate, and the
`_startup` of the orphan store `c4Disk`. -/
theorem c4_forward_only_except_orphan_restore_witness :
    ((("j0", c4wRec) ∈
        (runner_enqueue_job c4wSvc "t1" "L1" (.obj []) "j-new" 9).1.jobs ∧
      c4wFile ∈
        (runner_enqueue_job c4wSvc "t1" "L1" (.obj []) "j-new" 9).1.disk.jobFiles)) ∧
    (("j0", c4wRec) ∈ c4wSvc.jobs ∧ c4wFile ∈ c4wSvc.disk.jobFiles) ∧
    (c4wFile ∈ (run_one_cycle c4wEnv c4wDisk 100 300 none none).disk.jobFiles) ∧
    (∃ f ∈ c4Disk.jobFiles, ∃ r₀ : JobRec, f.content = .record r₀ ∧
      r₀.job_id = "j1" ∧ r₀.status = c4Rec.status) := by
  have hlk : c4wSvc.keyIndex.lookup (compute_job_key "t1" "L1" (.obj [])) =
      some "j0" := by
    show List.lookup _ [(compute_job_key "t1" "L1" (.obj []), "j0")] = _
    simp [List.lookup]
  have hok : service_enqueue_job c4wSvc "t1" "L1" (.obj []) "j-new" 9 =
      Except.ok (c4wSvc, ⟨"j0", c4wRec.status, "/jobs/" ++ "j0"⟩) :=
    service_enqueue_hit c4wSvc "t1" "L1" (.obj []) "j-new" 9 "j0" c4wRec hlk
      (by decide) rfl (Or.inr (Or.inr rfl))
  refine ⟨c4_forward_only_except_orphan_restore.1 c4wSvc "t1" "L1" (.obj [])
      "j-new" 9 "j0" c4wRec c4wFile (List.mem_singleton.mpr rfl)
      (List.mem_singleton.mpr rfl) (by decide) (by decide),
    c4_forward_only_except_orphan_restore.2.1 c4wSvc "t1" "L1" (.obj [])
      "j-new" 9 c4wSvc ⟨"j0", c4wRec.status, "/jobs/" ++ "j0"⟩ "j0" c4wRec
      c4wFile hok (List.mem_singleton.mpr rfl) (List.mem_singleton.mpr rfl)
      (by decide) (by decide),
    c4_forward_only_except_orphan_restore.2.2.1 c4wEnv c4wDisk 100 300
      none none c4wFile c4wRec (by decide) ?_ (List.mem_cons_self _ _) rfl
      (Or.inl rfl),
    c4_forward_only_except_orphan_restore.2.2.2 c4Disk c4Alive 50 "j1" c4Rec
      (by
        have h : (startup c4Disk c4Alive 50).1 = [("j1", c4Rec)] := rfl
        rw [h]
        exact List.mem_singleton.mpr rfl)
      (Or.inl rfl)⟩
  intro g hg rg hrg
  rcases List.mem_cons.mp hg with h | h
  · subst h
    injection hrg with h2
    rw [← h2]
    exact ⟨rfl, rfl, rfl⟩
  · rcases List.mem_cons.mp h with h2 | h2
    · subst h2
      injection hrg with h3
      rw [← h3]
      exact ⟨rfl, rfl, rfl⟩
    · cases h2
